import Mathlib

/-!
# goai request builder and client: a shallow embedding of
`pkg/requests/completions.go` and `pkg/client/client.go`

The Go struct `CompletionRequest` and its pointer-receiver methods are embedded as a
Lean structure and state-passing functions `CompletionRequest → … → CompletionRequest`;
`Client.SendCompletionRequest` returns the request after the call together with the
requests it handed to the transport and the returned pair.

* Go `int` is a 64-bit two's-complement integer.  Values are carried as `Int`, and the only
  two arithmetic operations of the file (`currbias+bias`, `currbias-bias`) go through
  `wrapInt`, reduction modulo `2^64` into `[-2^63, 2^63)`.
* Go `float64` is embedded as `Float64`: NaN, the two infinities and the finite values.
  The setters only compare floats with the constants `0`, `1`, `-2`, `2`; comparisons are
  IEEE-754 comparisons (every comparison with NaN is false).
* A Go `string` is the sequence of its bytes (`GoString`); a quoted text stands for the
  Go string holding its UTF-8 encoding.
* A Go `map[string]int` is an association list with first-match lookup; `nil` maps and
  `nil` slices are `none`.
-/

namespace Goai

/-! ## Machine integers -/

/-- Two's-complement reduction of an exact integer to the range of a 64-bit Go `int`. -/
def wrapInt (x : Int) : Int := (x + 2 ^ 63) % 2 ^ 64 - 2 ^ 63

/-- The exact integer is representable as a 64-bit Go `int`. -/
def InInt64 (x : Int) : Prop := -(2 ^ 63) ≤ x ∧ x < 2 ^ 63

instance (x : Int) : Decidable (InInt64 x) := by unfold InInt64; infer_instance

/-! ## float64 -/

/-- Values of a Go `float64`.  Finite values are carried as rationals (every finite
float64 is a dyadic rational; negative zero compares equal to zero and is identified
with it). -/
inductive Float64 where
  | nan : Float64
  | negInf : Float64
  | fin : ℚ → Float64
  | posInf : Float64
  deriving DecidableEq, Repr

namespace Float64

/-- IEEE-754 `<` on float64: false whenever an operand is NaN. -/
def lt : Float64 → Float64 → Bool
  | nan, _ => false
  | _, nan => false
  | negInf, negInf => false
  | negInf, _ => true
  | fin _, negInf => false
  | fin a, fin b => decide (a < b)
  | fin _, posInf => true
  | posInf, _ => false

/-- IEEE-754 `>` on float64: `a > b` is `b < a`. -/
def gt (a b : Float64) : Bool := lt b a

/-- IEEE-754 `<=` on float64: false whenever an operand is NaN. -/
def le : Float64 → Float64 → Bool
  | nan, _ => false
  | _, nan => false
  | negInf, _ => true
  | fin _, negInf => false
  | fin a, fin b => decide (a ≤ b)
  | fin _, posInf => true
  | posInf, posInf => true
  | posInf, _ => false

/-- The value is neither NaN nor an infinity. -/
def isFinite : Float64 → Bool
  | fin _ => true
  | _ => false

end Float64

/-! ## Go strings

A Go `string` holds arbitrary bytes.  A text written between quotes stands for the Go
string that holds its UTF-8 encoding (`utf8`), as a Go string literal without byte escapes
does.  `jsonText` is what `encoding/json` writes for a Go string. -/

/-- A Go `string`: a sequence of bytes, not necessarily valid UTF-8. -/
abbrev GoString := List UInt8

/-- The byte with value `n % 256`. -/
def byte (n : Nat) : UInt8 := UInt8.ofNat n

/-- The UTF-8 encoding of one character. -/
def utf8Char (c : Char) : GoString :=
  let n := c.toNat
  if n < 0x80 then [byte n]
  else if n < 0x800 then [byte (0xC0 + n / 0x40), byte (0x80 + n % 0x40)]
  else if n < 0x10000 then
    [byte (0xE0 + n / 0x1000), byte (0x80 + n / 0x40 % 0x40), byte (0x80 + n % 0x40)]
  else
    [byte (0xF0 + n / 0x40000), byte (0x80 + n / 0x1000 % 0x40),
     byte (0x80 + n / 0x40 % 0x40), byte (0x80 + n % 0x40)]

/-- The Go string holding the UTF-8 encoding of a text. -/
def utf8 (s : String) : GoString := s.data.flatMap utf8Char

/-- A quoted text used as a Go string is the Go string of its UTF-8 encoding. -/
instance : Coe String GoString := ⟨utf8⟩

/-- `utf8.DecodeRune`: the first character of a byte sequence and its width; a byte that
does not start a valid encoding decodes to U+FFFD with width 1. -/
def decodeRune : GoString → Char × Nat
  | [] => (Char.ofNat 0xFFFD, 0)
  | b0 :: rest =>
    let x0 := b0.toNat
    if x0 < 0x80 then (Char.ofNat x0, 1)
    else if 0xC2 ≤ x0 ∧ x0 ≤ 0xDF then
      match rest with
      | b1 :: _ =>
        if 0x80 ≤ b1.toNat ∧ b1.toNat ≤ 0xBF then
          (Char.ofNat ((x0 - 0xC0) * 0x40 + (b1.toNat - 0x80)), 2)
        else (Char.ofNat 0xFFFD, 1)
      | _ => (Char.ofNat 0xFFFD, 1)
    else if 0xE0 ≤ x0 ∧ x0 ≤ 0xEF then
      match rest with
      | b1 :: b2 :: _ =>
        if (if x0 = 0xE0 then 0xA0 else 0x80) ≤ b1.toNat ∧
            b1.toNat ≤ (if x0 = 0xED then 0x9F else 0xBF) ∧
            0x80 ≤ b2.toNat ∧ b2.toNat ≤ 0xBF then
          (Char.ofNat ((x0 - 0xE0) * 0x1000 + (b1.toNat - 0x80) * 0x40 + (b2.toNat - 0x80)), 3)
        else (Char.ofNat 0xFFFD, 1)
      | _ => (Char.ofNat 0xFFFD, 1)
    else if 0xF0 ≤ x0 ∧ x0 ≤ 0xF4 then
      match rest with
      | b1 :: b2 :: b3 :: _ =>
        if (if x0 = 0xF0 then 0x90 else 0x80) ≤ b1.toNat ∧
            b1.toNat ≤ (if x0 = 0xF4 then 0x8F else 0xBF) ∧
            0x80 ≤ b2.toNat ∧ b2.toNat ≤ 0xBF ∧ 0x80 ≤ b3.toNat ∧ b3.toNat ≤ 0xBF then
          (Char.ofNat ((x0 - 0xF0) * 0x40000 + (b1.toNat - 0x80) * 0x1000
            + (b2.toNat - 0x80) * 0x40 + (b3.toNat - 0x80)), 4)
        else (Char.ofNat 0xFFFD, 1)
      | _ => (Char.ofNat 0xFFFD, 1)
    else (Char.ofNat 0xFFFD, 1)

/-- Decode at most `fuel` characters, one `decodeRune` step at a time. -/
def decodeRunes : Nat → GoString → List Char
  | 0, _ => []
  | _, [] => []
  | fuel + 1, b :: rest =>
    (decodeRune (b :: rest)).1 ::
      decodeRunes fuel ((b :: rest).drop (decodeRune (b :: rest)).2)

/-- The text `encoding/json` writes for a Go string: its characters, with every byte that
is not part of a valid UTF-8 encoding replaced by U+FFFD. -/
def jsonText (s : GoString) : String := ⟨decodeRunes s.length s⟩

/-- Byte-wise order on Go strings, the order in which `encoding/json` sorts map keys. -/
def keyLess : GoString → GoString → Bool
  | [], [] => false
  | [], _ :: _ => true
  | _ :: _, [] => false
  | a :: as, b :: bs =>
    if a.toNat < b.toNat then true
    else if b.toNat < a.toNat then false
    else keyLess as bs

/-! ## Go maps and slices -/

/-- Contents of a `map[string]int`: key/value pairs, looked up by first match. -/
abbrev GoMap := List (GoString × Int)

/-- The comma-ok read `v, exists := m[tok]` (`none` when `exists` is false). -/
def mapLookup : GoMap → GoString → Option Int
  | [], _ => none
  | (k, v) :: rest, tok => if k = tok then some v else mapLookup rest tok

/-- The assignment `m[tok] = v`: overwrite the entry of `tok`, or add one. -/
def mapStore : GoMap → GoString → Int → GoMap
  | [], tok, v => [(tok, v)]
  | (k, w) :: rest, tok, v =>
    if k = tok then (k, v) :: rest else (k, w) :: mapStore rest tok v

/-- Entries of a possibly-nil map; reading a nil map behaves as reading an empty one. -/
def mapEntries : Option GoMap → GoMap
  | none => []
  | some m => m

/-- Elements of a possibly-nil slice. -/
def sliceElems : Option (List GoString) → List GoString
  | none => []
  | some l => l

/-! ## The request -/

/-- The Go struct `CompletionRequest`, field for field. -/
structure CompletionRequest where
  URL : GoString
  Bearer : GoString
  Model : GoString
  Prompt : GoString
  Stop : Option (List GoString)
  MaxTokens : Int
  Completions : Int
  Temperature : Float64
  TopP : Float64
  LogProbs : Int
  Echo : Bool
  BestOf : Int
  FrequencyPenalty : Float64
  PresencePenalty : Float64
  LogitBias : Option GoMap
  User : GoString
  Stream : Bool
  deriving DecidableEq, Repr

/-- The zero value `CompletionRequest{}`. -/
def zeroRequest : CompletionRequest :=
  { URL := "", Bearer := "", Model := "", Prompt := "", Stop := none, MaxTokens := 0,
    Completions := 0, Temperature := .fin 0, TopP := .fin 0, LogProbs := 0, Echo := false,
    BestOf := 0, FrequencyPenalty := .fin 0, PresencePenalty := .fin 0, LogitBias := none,
    User := "", Stream := false }

def SetBearer (c : CompletionRequest) (token : GoString) : CompletionRequest :=
  { c with Bearer := token }

def SetModel (c : CompletionRequest) (model : GoString) : CompletionRequest :=
  { c with Model := model }

def SetPrompt (c : CompletionRequest) (prompt : GoString) : CompletionRequest :=
  { c with Prompt := prompt }

/-- `AddStop`: a nil `Stop` becomes an empty slice, then `stop` is appended. -/
def AddStop (c : CompletionRequest) (stop : GoString) : CompletionRequest :=
  let c1 := if c.Stop = none then { c with Stop := some [] } else c
  { c1 with Stop := some (sliceElems c1.Stop ++ [stop]) }

def SetMaxTokens (c : CompletionRequest) (maxTokens : Int) : CompletionRequest :=
  { c with MaxTokens := maxTokens }

def SetCompletions (c : CompletionRequest) (completions : Int) : CompletionRequest :=
  { c with Completions := completions }

def SetTemperature (c : CompletionRequest) (temperature : Float64) : CompletionRequest :=
  let temperature :=
    if temperature.lt (.fin 0) then .fin 0
    else if temperature.gt (.fin 1) then .fin 1
    else temperature
  { c with Temperature := temperature }

def SetTopP (c : CompletionRequest) (topP : Float64) : CompletionRequest :=
  let topP :=
    if topP.lt (.fin 0) then .fin 0
    else if topP.gt (.fin 1) then .fin 1
    else topP
  { c with TopP := topP }

def SetLogProbs (c : CompletionRequest) (logProbs : Int) : CompletionRequest :=
  let logProbs :=
    if logProbs < 0 then 0
    else if logProbs > 5 then 5
    else logProbs
  { c with LogProbs := logProbs }

def SetEcho (c : CompletionRequest) (echo : Bool) : CompletionRequest :=
  { c with Echo := echo }

def SetBestOf (c : CompletionRequest) (bestOf : Int) : CompletionRequest :=
  let bestOf := if bestOf < 1 then 1 else bestOf
  { c with BestOf := bestOf }

def SetFrequencyPenalty (c : CompletionRequest) (freqp : Float64) : CompletionRequest :=
  let freqp :=
    if freqp.lt (.fin 0) then .fin 0
    else if freqp.gt (.fin 1) then .fin 1
    else freqp
  { c with FrequencyPenalty := freqp }

def SetPresencePenalty (c : CompletionRequest) (pp : Float64) : CompletionRequest :=
  let pp :=
    if pp.lt (.fin (-2)) then .fin (-2)
    else if pp.gt (.fin 2) then .fin 2
    else pp
  { c with PresencePenalty := pp }

/-- `AddBias`.  The sum `currbias+bias` is a 64-bit sum; `c.LogitBias[tok] += bias`
re-reads the entry, which still holds `currbias`. -/
def AddBias (c : CompletionRequest) (tok : GoString) (bias : Int) : CompletionRequest :=
  let m := mapEntries c.LogitBias
  match mapLookup m tok with
  | none =>
    let bias :=
      if bias > 100 then 100
      else if bias < -100 then -100
      else bias
    { c with LogitBias := some (mapStore m tok bias) }
  | some currbias =>
    if wrapInt (currbias + bias) > 100 then
      { c with LogitBias := some (mapStore m tok 100) }
    else if wrapInt (currbias + bias) < -100 then
      { c with LogitBias := some (mapStore m tok (-100)) }
    else
      { c with LogitBias := some (mapStore m tok (wrapInt (currbias + bias))) }

/-- `RemoveBias`.  The difference `currbias-bias` is a 64-bit difference. -/
def RemoveBias (c : CompletionRequest) (tok : GoString) (bias : Int) : CompletionRequest :=
  let m := mapEntries c.LogitBias
  match mapLookup m tok with
  | none =>
    let bias :=
      if bias > 100 then 100
      else if bias < -100 then -100
      else bias
    { c with LogitBias := some (mapStore m tok bias) }
  | some currbias =>
    if wrapInt (currbias - bias) > 100 then
      { c with LogitBias := some (mapStore m tok 100) }
    else if wrapInt (currbias - bias) < -100 then
      { c with LogitBias := some (mapStore m tok (-100)) }
    else
      { c with LogitBias := some (mapStore m tok (wrapInt (currbias - bias))) }

def SetUser (c : CompletionRequest) (user : GoString) : CompletionRequest :=
  { c with User := user }

def SetStream (c : CompletionRequest) (stream : Bool) : CompletionRequest :=
  { c with Stream := stream }

/-- `MakeDefault`: sixteen assignments; `Bearer` is not among them. -/
def MakeDefault (c : CompletionRequest) : CompletionRequest :=
  { c with
    URL := "https://api.openai.com/v1/completions"
    Model := "text-davinci-003"
    Prompt := ""
    Stop := some ["User:"]
    MaxTokens := 16
    Completions := 1
    Temperature := .fin 1
    TopP := .fin 1
    LogProbs := 0
    Echo := false
    BestOf := 1
    FrequencyPenalty := .fin 0
    PresencePenalty := .fin 0
    LogitBias := none
    Stream := false
    User := "" }

/-- `NewCompletionRequest`: the zero value made default. -/
def NewCompletionRequest : CompletionRequest := MakeDefault zeroRequest

/-! ## Serialization and the transport request

`encoding/json` and `net/http` are library code.  `Marshal` below is `json.Marshal` on
`CompletionRequest`, read off the struct's field tags: fields are emitted in declaration
order under their tag names, `json:"-"` fields are skipped, `omitempty` fields are skipped
when their length is 0, a map is emitted with its keys sorted byte-wise, a Go string is
written as its text with every byte outside a valid UTF-8 encoding replaced by U+FFFD, and
a float64 that is NaN or an infinity makes `Marshal` fail (`json: unsupported value`).  The
body is carried as the JSON value rather than as its bytes. -/

/-- JSON values that occur in the encoding of a `CompletionRequest`.  Strings and member
names are texts.  `int n` is the integer `n` written in decimal; `float q` is the number
written for the finite float64 of value `q`, which is the shortest decimal that parses
back to that float64 (so it determines `q` and is determined by it; for the value zero it
is `0` or `-0` by the sign of the zero, which `Float64` does not record). -/
inductive JSONValue where
  | string (s : String)
  | int (n : Int)
  | float (q : ℚ)
  | bool (b : Bool)
  | array (xs : List String)
  | object (kvs : List (String × Int))
  deriving DecidableEq, Repr

/-- A JSON object: its members in the order they are written. -/
abbrev JSONObject := List (String × JSONValue)

/-- Go `error` values: the two `GetRequest` can return, and those raised by the transport
and by reading a response body. -/
inductive RequestError where
  | unsupportedValue
  | invalidURL
  | transport (msg : String)
  | bodyRead (msg : String)
  deriving DecidableEq, Repr

/-- Put one map entry in its place among entries sorted by key. -/
def insertByKey (kv : GoString × Int) : GoMap → GoMap
  | [] => [kv]
  | x :: rest => if keyLess x.1 kv.1 then x :: insertByKey kv rest else kv :: x :: rest

/-- The entries of a map in the order `encoding/json` writes them: sorted by key. -/
def sortByKey (m : GoMap) : GoMap := m.foldr insertByKey []

/-- The float encoder of `encoding/json`: finite values only. -/
def encodeFloat : Float64 → Except RequestError JSONValue
  | .fin q => .ok (.float q)
  | _ => .error .unsupportedValue

/-- `json.Marshal(c)`. -/
def Marshal (c : CompletionRequest) : Except RequestError JSONObject := do
  let temperature ← encodeFloat c.Temperature
  let topP ← encodeFloat c.TopP
  let frequencyPenalty ← encodeFloat c.FrequencyPenalty
  let presencePenalty ← encodeFloat c.PresencePenalty
  pure ([("model", .string (jsonText c.Model)), ("prompt", .string (jsonText c.Prompt))]
    ++ (if (sliceElems c.Stop).length = 0 then []
        else [("stop", .array ((sliceElems c.Stop).map jsonText))])
    ++ [("max_tokens", .int c.MaxTokens), ("n", .int c.Completions),
        ("temperature", temperature), ("top_p", topP), ("logprobs", .int c.LogProbs),
        ("echo", .bool c.Echo), ("best_of", .int c.BestOf),
        ("frequency_penalty", frequencyPenalty), ("presence_penalty", presencePenalty)]
    ++ (if (mapEntries c.LogitBias).length = 0 then []
        else [("logit_bias",
          .object ((sortByKey (mapEntries c.LogitBias)).map
            (fun kv => (jsonText kv.1, kv.2))))])
    ++ [("user", .string (jsonText c.User)), ("stream", .bool c.Stream)])

/-- The parts of an `http.Request` that `GetRequest` determines. -/
structure HttpRequest where
  Method : GoString
  URL : GoString
  Header : List (GoString × GoString)
  Body : JSONObject
  deriving DecidableEq, Repr

/-- `http.NewRequest(method, url, body)`: fails when the URL does not parse; `parses` is
the library's URL parser seen as a predicate. -/
def NewRequest (parses : GoString → Bool) (method url : GoString) (body : JSONObject) :
    Except RequestError HttpRequest :=
  if parses url then .ok { Method := method, URL := url, Header := [], Body := body }
  else .error .invalidURL

/-- `Header.Set(key, value)`: replace the values of `key` by `value`. -/
def headerSet : List (GoString × GoString) → GoString → GoString → List (GoString × GoString)
  | [], key, value => [(key, value)]
  | (k, w) :: rest, key, value =>
    if k = key then (k, value) :: rest else (k, w) :: headerSet rest key value

/-- `GetRequest`: marshal, build the POST request, set the two headers. -/
def GetRequest (parses : GoString → Bool) (c : CompletionRequest) :
    Except RequestError HttpRequest := do
  let json ← Marshal c
  let req ← NewRequest parses "POST" c.URL json
  let req := { req with Header := headerSet req.Header "Content-Type" "application/json" }
  let req := { req with Header := headerSet req.Header "Authorization" (utf8 "Bearer " ++ c.Bearer) }
  pure req

/-- `GetRequest` as a method call on the receiver `c`: the receiver after the call and
the returned pair.  The method body assigns to no field of `c`. -/
def GetRequestCall (parses : GoString → Bool) (c : CompletionRequest) :
    CompletionRequest × Except RequestError HttpRequest :=
  (c, GetRequest parses c)

/-- The first value stored under a header key. -/
def headerGet : List (GoString × GoString) → GoString → Option GoString
  | [], _ => none
  | (k, v) :: rest, key => if k = key then some v else headerGet rest key

/-! ## The client (`pkg/client/client.go`)

`HttpClient.Do` and `io.ReadAll` are library code.  The transport handle is carried as the
function it computes on a request (the handle is taken non-nil, as `NewClient` and
`cmd/main.go` build it); a response carries its status code and what `io.ReadAll` gives on
its body.  A call of `SendCompletionRequest` yields the request after the call, the requests
handed to the transport, the lines printed, and the returned pair. -/

/-- The parts of an `http.Response` that `SendCompletionRequest` reads. -/
structure HttpResponse where
  StatusCode : Int
  Body : Except RequestError (List UInt8)

/-- The Go struct `Client`. -/
structure Client where
  bearerToken : GoString
  baseURL : GoString
  HttpClient : HttpRequest → Except RequestError HttpResponse

/-- `NewClient(token)`, with the transport handle it allocates as a parameter. -/
def NewClient (handle : HttpRequest → Except RequestError HttpResponse) (token : GoString) :
    Client :=
  { HttpClient := handle, bearerToken := token, baseURL := "" }

def SetBearerToken (cl : Client) (token : GoString) : Client :=
  { cl with bearerToken := token }

/-- What one call of `SendCompletionRequest` leaves behind and returns. -/
structure SendOutcome where
  req : CompletionRequest
  calls : List HttpRequest
  printed : List String
  result : Except RequestError (List UInt8)

/-- `SendCompletionRequest`. -/
def SendCompletionRequest (parses : GoString → Bool) (cl : Client) (req : CompletionRequest) :
    SendOutcome :=
  let req := SetBearer req cl.bearerToken
  match GetRequestCall parses req with
  | (req, .error err) =>
    { req := req, calls := [], printed := ["error transforming request"], result := .error err }
  | (req, .ok httpRequest) =>
    match cl.HttpClient httpRequest with
    | .error err =>
      { req := req, calls := [httpRequest], printed := ["error sending request"],
        result := .error err }
    | .ok resp =>
      match resp.Body with
      | .error err =>
        { req := req, calls := [httpRequest], printed := ["error reading response body"],
          result := .error err }
      | .ok body =>
        { req := req, calls := [httpRequest], printed := [], result := .ok body }

/-- A stand-in for the library's URL parser: it rejects the URLs that start with a colon
(`missing protocol scheme`) and accepts the others. -/
def exampleParses (url : GoString) : Bool :=
  match url with
  | 58 :: _ => false
  | _ => true

/-- A transport that answers every request with status 404 and a two-byte body. -/
def exampleHandle (_ : HttpRequest) : Except RequestError HttpResponse :=
  .ok { StatusCode := 404, Body := .ok [110, 111] }

/-- A transport that fails on every request. -/
def failingHandle (_ : HttpRequest) : Except RequestError HttpResponse :=
  .error (.transport "connection refused")

/-- A transport whose response body cannot be read. -/
def unreadableHandle (_ : HttpRequest) : Except RequestError HttpResponse :=
  .ok { StatusCode := 200, Body := .error (.bodyRead "unexpected EOF") }

/-- The member names of a JSON object, in order. -/
def jsonKeys (o : JSONObject) : List String := o.map Prod.fst

/-- The value of the first member named `key`. -/
def jsonGet : JSONObject → String → Option JSONValue
  | [], _ => none
  | (k, v) :: rest, key => if k = key then some v else jsonGet rest key

/-- The value of the first member named `key` in a JSON object of integers. -/
def objectGet : List (String × Int) → String → Option Int
  | [], _ => none
  | (k, v) :: rest, key => if k = key then some v else objectGet rest key

/-- The bias stored for `tok`, if any. -/
def biasOf (c : CompletionRequest) (tok : GoString) : Option Int :=
  mapLookup (mapEntries c.LogitBias) tok

/-- The spec's `clamp(x, lo, hi)` on exact integers. -/
def clampInt (x lo hi : Int) : Int := max lo (min x hi)

/-- The spec's `clamp(x, lo, hi)` on float64: `lo` if `x < lo`, `hi` if `x > hi`, and `x`
otherwise, with float64 comparisons. -/
def clampFloat (x lo hi : Float64) : Float64 :=
  if x.lt lo then lo else if x.gt hi then hi else x

/-- The range check `lo <= x && x <= hi` on float64. -/
def Float64.inRange (x lo hi : Float64) : Bool := lo.le x && x.le hi

/-- Every entry of `LogitBias` holds a value in `[-100, 100]`. -/
def BiasInRange (c : CompletionRequest) : Prop :=
  ∀ kv ∈ mapEntries c.LogitBias, -100 ≤ kv.2 ∧ kv.2 ≤ 100

instance (c : CompletionRequest) : Decidable (BiasInRange c) := by
  unfold BiasInRange; infer_instance

/-- One call of a mutator of `CompletionRequest`, with its arguments. -/
inductive Op where
  | setBearer (token : GoString)
  | setModel (model : GoString)
  | setPrompt (s : GoString)
  | addStop (stop : GoString)
  | setMaxTokens (maxTokens : Int)
  | setCompletions (completions : Int)
  | setTemperature (temperature : Float64)
  | setTopP (topP : Float64)
  | setLogProbs (logProbs : Int)
  | setEcho (echo : Bool)
  | setBestOf (bestOf : Int)
  | setFrequencyPenalty (freqp : Float64)
  | setPresencePenalty (pp : Float64)
  | addBias (tok : GoString) (bias : Int)
  | removeBias (tok : GoString) (bias : Int)
  | setUser (user : GoString)
  | setStream (stream : Bool)
  | makeDefault
  deriving DecidableEq, Repr

/-- Perform one mutator call. -/
def Op.apply : Op → CompletionRequest → CompletionRequest
  | .setBearer t, c => SetBearer c t
  | .setModel m, c => SetModel c m
  | .setPrompt p, c => SetPrompt c p
  | .addStop s, c => AddStop c s
  | .setMaxTokens n, c => SetMaxTokens c n
  | .setCompletions n, c => SetCompletions c n
  | .setTemperature t, c => SetTemperature c t
  | .setTopP t, c => SetTopP c t
  | .setLogProbs n, c => SetLogProbs c n
  | .setEcho e, c => SetEcho c e
  | .setBestOf n, c => SetBestOf c n
  | .setFrequencyPenalty f, c => SetFrequencyPenalty c f
  | .setPresencePenalty p, c => SetPresencePenalty c p
  | .addBias tok d, c => AddBias c tok d
  | .removeBias tok d, c => RemoveBias c tok d
  | .setUser u, c => SetUser c u
  | .setStream s, c => SetStream c s
  | .makeDefault, c => MakeDefault c

/-- Perform a sequence of mutator calls, first call first. -/
def runOps (ops : List Op) (c : CompletionRequest) : CompletionRequest :=
  ops.foldl (fun st op => op.apply st) c

/-- The value is a finite float64: `m * 2 ^ e` with `|m| < 2 ^ 53` and
`-1074 ≤ e ≤ 971`. -/
def IsBinary64 (q : ℚ) : Prop :=
  ∃ m e : ℤ, |m| < 2 ^ 53 ∧ -1074 ≤ e ∧ e ≤ 971 ∧ q = m * (2 : ℚ) ^ e

/-- The float64 nearest to 0.9, which is what the Go constant `0.9` denotes. -/
def float64_0_9 : ℚ := 8106479329266893 / 9007199254740992

/-- The float64 nearest to 0.6, which is what the Go constant `0.6` denotes. -/
def float64_0_6 : ℚ := 5404319552844595 / 9007199254740992

/-- The request built in `cmd/main.go`, with the prompt "Hello". -/
def exampleRequest : CompletionRequest :=
  SetFrequencyPenalty
    (SetTemperature (SetMaxTokens (SetPrompt NewCompletionRequest "Hello") 60)
      (.fin float64_0_9))
    (.fin float64_0_6)

/-- The body `exampleRequest` serializes to. -/
def exampleBody : JSONObject :=
  [("model", .string "text-davinci-003"), ("prompt", .string "Hello"),
   ("stop", .array ["User:"]), ("max_tokens", .int 60), ("n", .int 1),
   ("temperature", .float float64_0_9), ("top_p", .float 1), ("logprobs", .int 0),
   ("echo", .bool false), ("best_of", .int 1), ("frequency_penalty", .float float64_0_6),
   ("presence_penalty", .float 0), ("user", .string ""), ("stream", .bool false)]

/-- A request whose prompt is the Go string `"bad\xffbyte"`: the byte `0xff` is not part
of any UTF-8 encoding. -/
def invalidPromptRequest : CompletionRequest :=
  SetPrompt NewCompletionRequest (utf8 "bad" ++ [0xff] ++ utf8 "byte")

/-- The body `invalidPromptRequest` serializes to. -/
def invalidPromptBody : JSONObject :=
  [("model", .string "text-davinci-003"), ("prompt", .string "bad\uFFFDbyte"),
   ("stop", .array ["User:"]), ("max_tokens", .int 16), ("n", .int 1),
   ("temperature", .float 1), ("top_p", .float 1), ("logprobs", .int 0),
   ("echo", .bool false), ("best_of", .int 1), ("frequency_penalty", .float 0),
   ("presence_penalty", .float 0), ("user", .string ""), ("stream", .bool false)]

/-- A request whose `LogitBias` holds the single entry `tok: 1`. -/
def wrappingRequest : CompletionRequest := AddBias NewCompletionRequest "tok" 1

/-! ## Lemmas on maps and machine integers -/

theorem wrapInt_of_inInt64 {x : Int} (h : InInt64 x) : wrapInt x = x := by
  obtain ⟨h1, h2⟩ := h
  unfold wrapInt
  rw [Int.emod_eq_of_lt (by omega) (by omega)]
  omega

theorem clampInt_eq (x : Int) :
    clampInt x (-100) 100 = if x > 100 then 100 else if x < -100 then -100 else x := by
  unfold clampInt
  simp only [max_def, min_def]
  split_ifs <;> omega

theorem mapLookup_mapStore_self (m : GoMap) (tok : GoString) (v : Int) :
    mapLookup (mapStore m tok v) tok = some v := by
  induction m with
  | nil => simp [mapStore, mapLookup]
  | cons kw rest ih =>
    obtain ⟨k, w⟩ := kw
    by_cases hk : k = tok
    · simp [mapStore, mapLookup, hk]
    · simp [mapStore, mapLookup, hk, ih]

theorem mapLookup_mapStore_ne (m : GoMap) {tok other : GoString} (v : Int) (hne : other ≠ tok) :
    mapLookup (mapStore m tok v) other = mapLookup m other := by
  induction m with
  | nil => simp [mapStore, mapLookup, Ne.symm hne]
  | cons kw rest ih =>
    obtain ⟨k, w⟩ := kw
    by_cases hk : k = tok
    · subst hk
      simp [mapStore, mapLookup, Ne.symm hne]
    · by_cases hko : k = other
      · subst hko
        simp [mapStore, mapLookup, hk]
      · simp [mapStore, mapLookup, hk, hko, ih]

theorem mem_mapStore {m : GoMap} {tok : GoString} {v : Int} {kv : GoString × Int}
    (h : kv ∈ mapStore m tok v) : kv ∈ m ∨ kv.2 = v := by
  induction m with
  | nil =>
    simp [mapStore] at h
    right; rw [h]
  | cons kw rest ih =>
    obtain ⟨k, w⟩ := kw
    by_cases hk : k = tok
    · simp [mapStore, hk] at h
      rcases h with h | h
      · right; rw [h]
      · left; simp [h]
    · simp [mapStore, hk] at h
      rcases h with h | h
      · left; simp [h]
      · rcases ih h with h1 | h1
        · left; simp [h1]
        · right; exact h1

/-- The map `AddBias` leaves behind: the old entries with one store at `tok`. -/
theorem AddBias_LogitBias (c : CompletionRequest) (tok : GoString) (d : Int) :
    (AddBias c tok d).LogitBias =
      some (mapStore (mapEntries c.LogitBias) tok
        (match biasOf c tok with
          | none => clampInt d (-100) 100
          | some v => clampInt (wrapInt (v + d)) (-100) 100)) := by
  unfold AddBias biasOf
  generalize mapEntries c.LogitBias = m
  cases h : mapLookup m tok with
  | none => simp only [h, clampInt_eq]
  | some v =>
    simp only [h, clampInt_eq]
    split_ifs <;> rfl

/-- The map `RemoveBias` leaves behind: the old entries with one store at `tok`. -/
theorem RemoveBias_LogitBias (c : CompletionRequest) (tok : GoString) (d : Int) :
    (RemoveBias c tok d).LogitBias =
      some (mapStore (mapEntries c.LogitBias) tok
        (match biasOf c tok with
          | none => clampInt d (-100) 100
          | some v => clampInt (wrapInt (v - d)) (-100) 100)) := by
  unfold RemoveBias biasOf
  generalize mapEntries c.LogitBias = m
  cases h : mapLookup m tok with
  | none => simp only [h, clampInt_eq]
  | some v =>
    simp only [h, clampInt_eq]
    split_ifs <;> rfl

/-- What `AddBias` leaves stored for its token, in terms of the entry before the call. -/
theorem biasOf_AddBias_self (c : CompletionRequest) (tok : GoString) (d : Int) :
    biasOf (AddBias c tok d) tok =
      some (match biasOf c tok with
        | none => clampInt d (-100) 100
        | some v => clampInt (wrapInt (v + d)) (-100) 100) := by
  rw [biasOf, AddBias_LogitBias, mapEntries, mapLookup_mapStore_self]

/-- What `RemoveBias` leaves stored for its token, in terms of the entry before the call. -/
theorem biasOf_RemoveBias_self (c : CompletionRequest) (tok : GoString) (d : Int) :
    biasOf (RemoveBias c tok d) tok =
      some (match biasOf c tok with
        | none => clampInt d (-100) 100
        | some v => clampInt (wrapInt (v - d)) (-100) 100) := by
  rw [biasOf, RemoveBias_LogitBias, mapEntries, mapLookup_mapStore_self]

theorem clampInt_range (x : Int) :
    -100 ≤ clampInt x (-100) 100 ∧ clampInt x (-100) 100 ≤ 100 := by
  rw [clampInt_eq]
  split_ifs <;> omega

theorem AddStop_Stop (c : CompletionRequest) (stop : GoString) :
    (AddStop c stop).Stop = some (sliceElems c.Stop ++ [stop]) := by
  unfold AddStop
  by_cases h : c.Stop = none <;> simp [h, sliceElems]

theorem AddStop_LogitBias (c : CompletionRequest) (stop : GoString) :
    (AddStop c stop).LogitBias = c.LogitBias := by
  unfold AddStop
  by_cases h : c.Stop = none <;> simp [h]

/-- Storing an in-range value keeps every entry in range. -/
theorem BiasInRange_of_store {c c1 : CompletionRequest} {tok : GoString} {v : Int}
    (hc : BiasInRange c) (hv : -100 ≤ v ∧ v ≤ 100)
    (h1 : c1.LogitBias = some (mapStore (mapEntries c.LogitBias) tok v)) :
    BiasInRange c1 := by
  intro kv hkv
  rw [h1] at hkv
  rcases mem_mapStore hkv with h | h
  · exact hc kv h
  · rw [h]; exact hv

/-- Every mutator preserves the range of the stored biases. -/
theorem BiasInRange_apply (op : Op) {c : CompletionRequest} (hc : BiasInRange c) :
    BiasInRange (op.apply c) := by
  cases op with
  | addBias tok d =>
    exact BiasInRange_of_store hc (by split <;> exact clampInt_range _) (AddBias_LogitBias c tok d)
  | removeBias tok d =>
    exact BiasInRange_of_store hc (by split <;> exact clampInt_range _)
      (RemoveBias_LogitBias c tok d)
  | addStop stop =>
    intro kv hkv
    simp only [Op.apply, AddStop_LogitBias] at hkv
    exact hc kv hkv
  | makeDefault =>
    intro kv hkv
    simp [Op.apply, MakeDefault, mapEntries] at hkv
  | _ => exact hc

theorem BiasInRange_runOps (ops : List Op) {c : CompletionRequest} (hc : BiasInRange c) :
    BiasInRange (runOps ops c) := by
  induction ops generalizing c with
  | nil => exact hc
  | cons op rest ih => exact ih (BiasInRange_apply op hc)

/-- Outside NaN the float clamp lands between its bounds. -/
theorem clampFloat_inRange (x : Float64) (lo hi : ℚ) (hlh : lo ≤ hi) (hx : x ≠ .nan) :
    (clampFloat x (.fin lo) (.fin hi)).inRange (.fin lo) (.fin hi) = true := by
  cases x with
  | nan => exact absurd rfl hx
  | negInf => simp [clampFloat, Float64.inRange, Float64.lt, Float64.le, hlh]
  | posInf => simp [clampFloat, Float64.inRange, Float64.lt, Float64.gt, Float64.le, hlh]
  | fin q =>
    by_cases h1 : q < lo
    · simp [clampFloat, Float64.inRange, Float64.lt, Float64.le, h1, hlh]
    · by_cases h2 : hi < q
      · simp [clampFloat, Float64.inRange, Float64.lt, Float64.gt, Float64.le, h1, h2, hlh]
      · simp [clampFloat, Float64.inRange, Float64.lt, Float64.gt, Float64.le, h1, h2]
        exact ⟨not_lt.mp h1, not_lt.mp h2⟩

/-! ## Bias adjustment -/

/-- C1: over exact integers (the 64-bit sum or difference equals the exact one), a token
without entry gets `clamp(d, -100, 100)` from both `AddBias` and `RemoveBias`; a token with
entry `v` gets `clamp(v + d, -100, 100)` from `AddBias` and `clamp(v - d, -100, 100)` from
`RemoveBias`. -/
theorem AddBias_RemoveBias_store_clamp (c : CompletionRequest) (tok : GoString) (d : Int) :
    (biasOf c tok = none →
      biasOf (AddBias c tok d) tok = some (clampInt d (-100) 100) ∧
      biasOf (RemoveBias c tok d) tok = some (clampInt d (-100) 100)) ∧
    (∀ v, biasOf c tok = some v → InInt64 (v + d) →
      biasOf (AddBias c tok d) tok = some (clampInt (v + d) (-100) 100)) ∧
    (∀ v, biasOf c tok = some v → InInt64 (v - d) →
      biasOf (RemoveBias c tok d) tok = some (clampInt (v - d) (-100) 100)) := by
  refine ⟨fun h => ⟨?_, ?_⟩, fun v h hv => ?_, fun v h hv => ?_⟩
  · rw [biasOf_AddBias_self, h]
  · rw [biasOf_RemoveBias_self, h]
  · rw [biasOf_AddBias_self, h]
    simp only [wrapInt_of_inInt64 hv]
  · rw [biasOf_RemoveBias_self, h]
    simp only [wrapInt_of_inInt64 hv]

/-- C1 at the spec's example: on a fresh request `AddBias(tok, 150)` stores 100 and a
following `RemoveBias(tok, 300)` stores -100 (and a following `AddBias(tok, -30)` would
store 70). -/
theorem AddBias_RemoveBias_store_clamp_witness :
    biasOf (AddBias NewCompletionRequest "tok" 150) "tok" = some 100 ∧
    biasOf (RemoveBias (AddBias NewCompletionRequest "tok" 150) "tok" 300) "tok"
      = some (-100) ∧
    biasOf (AddBias (AddBias NewCompletionRequest "tok" 150) "tok" (-30)) "tok" = some 70 :=
  ⟨((AddBias_RemoveBias_store_clamp NewCompletionRequest "tok" 150).1 (by decide)).1,
   (AddBias_RemoveBias_store_clamp (AddBias NewCompletionRequest "tok" 150) "tok" 300).2.2
      100 (by decide) (by decide),
   (AddBias_RemoveBias_store_clamp (AddBias NewCompletionRequest "tok" 150) "tok" (-30)).2.1
      100 (by decide) (by decide)⟩

/-- C2: from `NewCompletionRequest()`, or from `MakeDefault` on any request, every finite
sequence of mutator calls (`AddBias` and `RemoveBias` with any tokens and any deltas, and
all the other setters) leaves every entry of `LogitBias` within `[-100, 100]`. -/
theorem BiasInRange_reachable (c : CompletionRequest) (ops : List Op) :
    BiasInRange (runOps ops NewCompletionRequest) ∧
    BiasInRange (runOps ops (MakeDefault c)) := by
  constructor
  · exact BiasInRange_runOps ops (by decide)
  · apply BiasInRange_runOps ops
    intro kv hkv
    simp [MakeDefault, mapEntries] at hkv

/-! ## Clamping setters -/

/-- C3: `SetLogProbs(n)` stores `clamp(n, 0, 5)`: 0 below 0, 5 above 5, `n` otherwise. -/
theorem SetLogProbs_clamp (c : CompletionRequest) (n : Int) :
    (SetLogProbs c n).LogProbs = clampInt n 0 5 ∧
    (SetLogProbs c n).LogProbs = (if n < 0 then 0 else if n > 5 then 5 else n) := by
  refine ⟨?_, rfl⟩
  show (if n < 0 then 0 else if n > 5 then 5 else n) = clampInt n 0 5
  unfold clampInt
  simp only [max_def, min_def]
  split_ifs <;> omega

/-- C4: `SetBestOf(b)` stores `max(b, 1)`, so every `b >= 1` is stored unchanged. -/
theorem SetBestOf_max (c : CompletionRequest) (b : Int) :
    (SetBestOf c b).BestOf = max b 1 ∧ (1 ≤ b → (SetBestOf c b).BestOf = b) := by
  have h : (SetBestOf c b).BestOf = if b < 1 then 1 else b := rfl
  rw [h]
  constructor
  · simp only [max_def]
    split_ifs <;> omega
  · intro hb
    split_ifs <;> omega

/-- C4 at a large argument: `SetBestOf(1000000)` stores 1000000. -/
theorem SetBestOf_max_witness :
    (1 : Int) ≤ 1000000 ∧ (SetBestOf NewCompletionRequest 1000000).BestOf = 1000000 :=
  ⟨by decide, (SetBestOf_max NewCompletionRequest 1000000).2 (by decide)⟩

/-- C5: each float setter stores the clamp of its argument: `SetTemperature`, `SetTopP`
and `SetFrequencyPenalty` store `clamp(x, 0, 1)`, `SetPresencePenalty` stores
`clamp(x, -2, 2)`, for every float64 `x` (NaN and the infinities included). -/
theorem float_setters_clamp (c : CompletionRequest) (x : Float64) :
    (SetTemperature c x).Temperature = clampFloat x (.fin 0) (.fin 1) ∧
    (SetTopP c x).TopP = clampFloat x (.fin 0) (.fin 1) ∧
    (SetFrequencyPenalty c x).FrequencyPenalty = clampFloat x (.fin 0) (.fin 1) ∧
    (SetPresencePenalty c x).PresencePenalty = clampFloat x (.fin (-2)) (.fin 2) :=
  ⟨rfl, rfl, rfl, rfl⟩

/-- C6 fails at NaN: each float setter called with NaN stores NaN, which is outside the
range of its field (every comparison with NaN is false). -/
theorem setters_range_counterexample :
    (SetTemperature NewCompletionRequest .nan).Temperature = .nan ∧
    ¬ ((SetTemperature NewCompletionRequest .nan).Temperature.inRange (.fin 0) (.fin 1)
        = true) ∧
    ¬ ((SetTopP NewCompletionRequest .nan).TopP.inRange (.fin 0) (.fin 1) = true) ∧
    ¬ ((SetFrequencyPenalty NewCompletionRequest .nan).FrequencyPenalty.inRange
        (.fin 0) (.fin 1) = true) ∧
    ¬ ((SetPresencePenalty NewCompletionRequest .nan).PresencePenalty.inRange
        (.fin (-2)) (.fin 2) = true) := by
  refine ⟨rfl, ?_, ?_, ?_, ?_⟩ <;> decide

/-- C6, amended: for every float64 argument other than NaN (the infinities included) and
every int argument, the field is in its range right after the call. -/
theorem setters_range_of_not_nan (c : CompletionRequest) (x : Float64) (n : Int)
    (hx : x ≠ .nan) :
    (SetTemperature c x).Temperature.inRange (.fin 0) (.fin 1) = true ∧
    (SetTopP c x).TopP.inRange (.fin 0) (.fin 1) = true ∧
    (SetFrequencyPenalty c x).FrequencyPenalty.inRange (.fin 0) (.fin 1) = true ∧
    (SetPresencePenalty c x).PresencePenalty.inRange (.fin (-2)) (.fin 2) = true ∧
    (0 ≤ (SetLogProbs c n).LogProbs ∧ (SetLogProbs c n).LogProbs ≤ 5) ∧
    1 ≤ (SetBestOf c n).BestOf := by
  have h01 : (clampFloat x (.fin 0) (.fin 1)).inRange (.fin 0) (.fin 1) = true :=
    clampFloat_inRange x 0 1 (by norm_num) hx
  have h22 : (clampFloat x (.fin (-2)) (.fin 2)).inRange (.fin (-2)) (.fin 2) = true :=
    clampFloat_inRange x (-2) 2 (by norm_num) hx
  refine ⟨h01, h01, h01, h22, ?_, ?_⟩
  · have h : (SetLogProbs c n).LogProbs = if n < 0 then 0 else if n > 5 then 5 else n := rfl
    rw [h]
    split_ifs <;> omega
  · have h : (SetBestOf c n).BestOf = if n < 1 then 1 else n := rfl
    rw [h]
    split_ifs <;> omega

/-- C6, amended, at `+Inf` and `-7`: the infinity is clamped to the upper bounds and the int
to the lower bounds. -/
theorem setters_range_of_not_nan_witness :
    (SetTemperature NewCompletionRequest .posInf).Temperature.inRange (.fin 0) (.fin 1)
      = true ∧
    (SetTopP NewCompletionRequest .posInf).TopP.inRange (.fin 0) (.fin 1) = true ∧
    (SetFrequencyPenalty NewCompletionRequest .posInf).FrequencyPenalty.inRange
      (.fin 0) (.fin 1) = true ∧
    (SetPresencePenalty NewCompletionRequest .posInf).PresencePenalty.inRange
      (.fin (-2)) (.fin 2) = true ∧
    (0 ≤ (SetLogProbs NewCompletionRequest (-7)).LogProbs ∧
      (SetLogProbs NewCompletionRequest (-7)).LogProbs ≤ 5) ∧
    1 ≤ (SetBestOf NewCompletionRequest (-7)).BestOf :=
  setters_range_of_not_nan NewCompletionRequest .posInf (-7) (by decide)

/-! ## Defaults -/

/-- C7: `NewCompletionRequest()` holds exactly the documented defaults, with an empty
`Bearer` and a nil `LogitBias`, and every numeric default lies in its clamp range. -/
theorem NewCompletionRequest_defaults :
    NewCompletionRequest =
      { URL := "https://api.openai.com/v1/completions"
        Bearer := ""
        Model := "text-davinci-003"
        Prompt := ""
        Stop := some ["User:"]
        MaxTokens := 16
        Completions := 1
        Temperature := .fin 1
        TopP := .fin 1
        LogProbs := 0
        Echo := false
        BestOf := 1
        FrequencyPenalty := .fin 0
        PresencePenalty := .fin 0
        LogitBias := none
        User := ""
        Stream := false } ∧
    NewCompletionRequest.Temperature.inRange (.fin 0) (.fin 1) = true ∧
    NewCompletionRequest.TopP.inRange (.fin 0) (.fin 1) = true ∧
    NewCompletionRequest.FrequencyPenalty.inRange (.fin 0) (.fin 1) = true ∧
    NewCompletionRequest.PresencePenalty.inRange (.fin (-2)) (.fin 2) = true ∧
    (0 ≤ NewCompletionRequest.LogProbs ∧ NewCompletionRequest.LogProbs ≤ 5) ∧
    1 ≤ NewCompletionRequest.BestOf ∧
    BiasInRange NewCompletionRequest := by
  refine ⟨rfl, ?_, ?_, ?_, ?_, ?_, ?_, ?_⟩ <;> decide

/-- C8 fails on `Bearer`: a request holding a bearer token keeps it through `MakeDefault`,
so the result differs from a freshly constructed request. -/
theorem MakeDefault_counterexample :
    (MakeDefault (SetBearer NewCompletionRequest "sk-secret")).Bearer = "sk-secret" ∧
    NewCompletionRequest.Bearer = "" ∧
    MakeDefault (SetBearer NewCompletionRequest "sk-secret") ≠ NewCompletionRequest := by
  refine ⟨rfl, rfl, ?_⟩
  decide

/-- C8, amended: for every request `c`, `MakeDefault` gives the freshly constructed request
in every field other than `Bearer`, and `Bearer` keeps the value it had. -/
theorem MakeDefault_eq_new_except_Bearer (c : CompletionRequest) :
    MakeDefault c = { NewCompletionRequest with Bearer := c.Bearer } ∧
    (MakeDefault c).Bearer = c.Bearer :=
  ⟨rfl, rfl⟩

/-! ## Stop sequences -/

/-- C9: calling `AddStop` on the elements of `xs` in order leaves `Stop` equal to the
previous `Stop` (nil counting as empty) followed by `xs`, in the same order. -/
theorem AddStop_foldl_append (c : CompletionRequest) (xs : List GoString) :
    sliceElems (xs.foldl AddStop c).Stop = sliceElems c.Stop ++ xs := by
  induction xs generalizing c with
  | nil => simp
  | cons x rest ih =>
    rw [List.foldl_cons, ih, AddStop_Stop, sliceElems, List.append_assoc]
    rfl


/-! ## Go strings and texts -/

theorem byte_toNat {n : Nat} (h : n < 256) : (byte n).toNat = n := by
  simp [byte, UInt8.toNat, UInt8.ofNat, Nat.mod_eq_of_lt h]


theorem toNat_valid (c : Char) :
    c.toNat < 0xD800 ∨ (0xDFFF < c.toNat ∧ c.toNat < 0x110000) := c.valid

/-- Decoding the encoding of a character gives the character back, with its width. -/
theorem decodeRune_utf8Char (c : Char) (tl : GoString) :
    decodeRune (utf8Char c ++ tl) = (c, (utf8Char c).length) := by
  have hv := toNat_valid c
  have hc := Char.ofNat_toNat c
  generalize hn : c.toNat = n at hv hc
  unfold utf8Char
  simp only [hn]
  by_cases h1 : n < 0x80
  · simp only [if_pos h1, List.cons_append, List.nil_append, decodeRune,
      byte_toNat (show n < 256 by omega), List.length_singleton]
    rw [hc]
  · by_cases h2 : n < 0x800
    · simp only [if_neg h1, if_pos h2, List.cons_append, List.nil_append, decodeRune,
        byte_toNat (show 0xC0 + n / 0x40 < 256 by omega),
        byte_toNat (show 0x80 + n % 0x40 < 256 by omega)]
      rw [if_neg (by omega), if_pos (by omega), if_pos (by omega)]
      have : (0xC0 + n / 0x40 - 0xC0) * 0x40 + (0x80 + n % 0x40 - 0x80) = n := by omega
      rw [this, hc]
      rfl
    · by_cases h3 : n < 0x10000
      · simp only [if_neg h1, if_neg h2, if_pos h3, List.cons_append, List.nil_append,
          decodeRune, byte_toNat (show 0xE0 + n / 0x1000 < 256 by omega),
          byte_toNat (show 0x80 + n / 0x40 % 0x40 < 256 by omega),
          byte_toNat (show 0x80 + n % 0x40 < 256 by omega)]
        rw [if_neg (by omega), if_neg (by omega), if_pos (by omega)]
        have hcond : (if 0xE0 + n / 0x1000 = 0xE0 then 0xA0 else 0x80) ≤ 0x80 + n / 0x40 % 0x40 ∧
            0x80 + n / 0x40 % 0x40 ≤ (if 0xE0 + n / 0x1000 = 0xED then 0x9F else 0xBF) ∧
            0x80 ≤ 0x80 + n % 0x40 ∧ 0x80 + n % 0x40 ≤ 0xBF := by
          refine ⟨?_, ?_, ?_, ?_⟩ <;> first | omega | (split_ifs <;> omega)
        rw [if_pos hcond]
        have : (0xE0 + n / 0x1000 - 0xE0) * 0x1000 + (0x80 + n / 0x40 % 0x40 - 0x80) * 0x40
            + (0x80 + n % 0x40 - 0x80) = n := by omega
        rw [this, hc]
        rfl
      · simp only [if_neg h1, if_neg h2, if_neg h3, List.cons_append, List.nil_append,
          decodeRune, byte_toNat (show 0xF0 + n / 0x40000 < 256 by omega),
          byte_toNat (show 0x80 + n / 0x1000 % 0x40 < 256 by omega),
          byte_toNat (show 0x80 + n / 0x40 % 0x40 < 256 by omega),
          byte_toNat (show 0x80 + n % 0x40 < 256 by omega)]
        rw [if_neg (by omega), if_neg (by omega), if_neg (by omega), if_pos (by omega)]
        have hcond : (if 0xF0 + n / 0x40000 = 0xF0 then 0x90 else 0x80)
              ≤ 0x80 + n / 0x1000 % 0x40 ∧
            0x80 + n / 0x1000 % 0x40 ≤ (if 0xF0 + n / 0x40000 = 0xF4 then 0x8F else 0xBF) ∧
            0x80 ≤ 0x80 + n / 0x40 % 0x40 ∧ 0x80 + n / 0x40 % 0x40 ≤ 0xBF ∧
            0x80 ≤ 0x80 + n % 0x40 ∧ 0x80 + n % 0x40 ≤ 0xBF := by
          refine ⟨?_, ?_, ?_, ?_, ?_, ?_⟩ <;> first | omega | (split_ifs <;> omega)
        rw [if_pos hcond]
        have : (0xF0 + n / 0x40000 - 0xF0) * 0x40000 + (0x80 + n / 0x1000 % 0x40 - 0x80) * 0x1000
            + (0x80 + n / 0x40 % 0x40 - 0x80) * 0x40 + (0x80 + n % 0x40 - 0x80) = n := by omega
        rw [this, hc]
        rfl


theorem utf8Char_length_pos (c : Char) : 0 < (utf8Char c).length := by
  unfold utf8Char
  simp only []
  split_ifs <;> simp

theorem utf8Char_ne_nil (c : Char) : utf8Char c ≠ [] := by
  intro h
  have := utf8Char_length_pos c
  rw [h] at this
  exact absurd this (by simp)

theorem decodeRunes_utf8 (cs : List Char) (tl : GoString) (fuel : Nat)
    (hf : cs.length ≤ fuel) :
    decodeRunes fuel (cs.flatMap utf8Char ++ tl) = cs ++ decodeRunes (fuel - cs.length) tl := by
  induction cs generalizing fuel with
  | nil => simp
  | cons c rest ih =>
    obtain ⟨f, rfl⟩ : ∃ f, fuel = f + 1 := ⟨fuel - 1, by simp at hf; omega⟩
    have hne := utf8Char_ne_nil c
    have hl : (c :: rest).flatMap utf8Char ++ tl = utf8Char c ++ (rest.flatMap utf8Char ++ tl) := by
      simp [List.flatMap_cons]
    rw [hl]
    cases hu : utf8Char c with
    | nil => exact absurd hu hne
    | cons b bs =>
      have hd := decodeRune_utf8Char c (rest.flatMap utf8Char ++ tl)
      rw [hu] at hd
      simp only [List.cons_append] at hd ⊢
      rw [decodeRunes, hd]
      simp only [List.length_cons, List.drop_succ_cons, List.drop_left,
        List.cons_append, Nat.add_sub_add_right]
      rw [ih f (by simp at hf; omega)]

/-- The text written for the encoding of a text is that text. -/
theorem jsonText_utf8 (t : String) : jsonText (utf8 t) = t := by
  unfold jsonText utf8
  have h := decodeRunes_utf8 t.data [] (t.data.flatMap utf8Char).length (by
    induction t.data with
    | nil => simp
    | cons c rest ih =>
      have := utf8Char_length_pos c
      simp only [List.flatMap_cons, List.length_append, List.length_cons]
      omega)
  simp only [List.append_nil] at h
  rw [h]
  have : decodeRunes ((t.data.flatMap utf8Char).length - t.data.length) [] = [] := by
    cases ((t.data.flatMap utf8Char).length - t.data.length) <;> rfl
  rw [this, List.append_nil]

theorem utf8_injective {a b : String} (h : utf8 a = utf8 b) : a = b := by
  rw [← jsonText_utf8 a, ← jsonText_utf8 b, h]

theorem keyLess_irrefl (a : GoString) : keyLess a a = false := by
  induction a with
  | nil => rfl
  | cons x rest ih => simp [keyLess, ih]

/-! ## Serialization -/

theorem mapLookup_insertByKey (kv : GoString × Int) (m : GoMap) (tok : GoString) :
    mapLookup (insertByKey kv m) tok = if kv.1 = tok then some kv.2 else mapLookup m tok := by
  induction m with
  | nil => rfl
  | cons x rest ih =>
    obtain ⟨k, w⟩ := x
    obtain ⟨k1, w1⟩ := kv
    by_cases hlt : keyLess k k1 = true
    · have hne : k ≠ k1 := by
        intro he
        rw [he, keyLess_irrefl] at hlt
        cases hlt
      simp only [insertByKey, hlt, if_true, mapLookup, ih]
      by_cases h1 : k1 = tok
      · subst h1
        simp [hne]
      · simp [h1]
    · simp only [insertByKey, hlt, mapLookup]

theorem mapLookup_sortByKey (m : GoMap) (tok : GoString) :
    mapLookup (sortByKey m) tok = mapLookup m tok := by
  induction m with
  | nil => rfl
  | cons x rest ih =>
    obtain ⟨k, w⟩ := x
    show mapLookup (insertByKey (k, w) (sortByKey rest)) tok = _
    rw [mapLookup_insertByKey, ih]
    rfl

theorem mem_insertByKey {kv x : GoString × Int} {m : GoMap} (h : x ∈ insertByKey kv m) :
    x = kv ∨ x ∈ m := by
  induction m with
  | nil =>
    simp [insertByKey] at h
    exact Or.inl h
  | cons y rest ih =>
    unfold insertByKey at h
    split_ifs at h
    · rcases List.mem_cons.mp h with h1 | h1
      · exact Or.inr (by rw [h1]; exact List.mem_cons_self _ _)
      · rcases ih h1 with h2 | h2
        · exact Or.inl h2
        · exact Or.inr (List.mem_cons_of_mem _ h2)
    · rcases List.mem_cons.mp h with h1 | h1
      · exact Or.inl h1
      · exact Or.inr h1

theorem mem_sortByKey {x : GoString × Int} {m : GoMap} (h : x ∈ sortByKey m) : x ∈ m := by
  induction m with
  | nil => exact h
  | cons y rest ih =>
    rcases mem_insertByKey (show x ∈ insertByKey y (sortByKey rest) from h) with h1 | h1
    · rw [h1]; exact List.mem_cons_self _ _
    · exact List.mem_cons_of_mem _ (ih h1)

/-- Over a map whose keys are encodings of texts, the object written for it holds under the
text `t` what the map holds under the Go string of `t`. -/
theorem objectGet_map_jsonText (m : GoMap) (hm : ∀ kv ∈ m, ∃ t, kv.1 = utf8 t) (t : String) :
    objectGet (m.map (fun kv => (jsonText kv.1, kv.2))) t = mapLookup m (utf8 t) := by
  induction m with
  | nil => rfl
  | cons x rest ih =>
    obtain ⟨k, w⟩ := x
    obtain ⟨t0, ht0⟩ := hm (k, w) (List.mem_cons_self _ _)
    have ih1 := ih (fun kv hkv => hm kv (List.mem_cons_of_mem _ hkv))
    simp only at ht0
    subst ht0
    simp only [List.map_cons, objectGet, mapLookup, jsonText_utf8, ih1]
    by_cases he : t0 = t
    · subst he
      simp
    · have : utf8 t0 ≠ utf8 t := fun h => he (utf8_injective h)
      simp [he, this]

theorem Marshal_finite {c : CompletionRequest} {body : JSONObject} (h : Marshal c = .ok body) :
    ∃ t p f pp : ℚ, c.Temperature = .fin t ∧ c.TopP = .fin p ∧
      c.FrequencyPenalty = .fin f ∧ c.PresencePenalty = .fin pp := by
  unfold Marshal at h
  cases hT : c.Temperature <;> cases hP : c.TopP <;> cases hF : c.FrequencyPenalty <;>
    cases hPP : c.PresencePenalty <;>
    simp [hT, hP, hF, hPP, encodeFloat, bind, Except.bind] at h ⊢

theorem Marshal_of_finite {c : CompletionRequest} {t p f pp : ℚ}
    (ht : c.Temperature = .fin t) (hp : c.TopP = .fin p)
    (hf : c.FrequencyPenalty = .fin f) (hpp : c.PresencePenalty = .fin pp) :
    Marshal c = .ok ([("model", .string (jsonText c.Model)),
          ("prompt", .string (jsonText c.Prompt))]
      ++ (if (sliceElems c.Stop).length = 0 then []
          else [("stop", .array ((sliceElems c.Stop).map jsonText))])
      ++ [("max_tokens", .int c.MaxTokens), ("n", .int c.Completions),
          ("temperature", .float t), ("top_p", .float p), ("logprobs", .int c.LogProbs),
          ("echo", .bool c.Echo), ("best_of", .int c.BestOf),
          ("frequency_penalty", .float f), ("presence_penalty", .float pp)]
      ++ (if (mapEntries c.LogitBias).length = 0 then []
          else [("logit_bias",
            .object ((sortByKey (mapEntries c.LogitBias)).map
              (fun kv => (jsonText kv.1, kv.2))))])
      ++ [("user", .string (jsonText c.User)), ("stream", .bool c.Stream)]) := by
  unfold Marshal
  rw [ht, hp, hf, hpp]
  rfl

theorem Marshal_exampleRequest : Marshal exampleRequest = .ok exampleBody := by
  have hT : exampleRequest.Temperature = .fin float64_0_9 := by
    norm_num [exampleRequest, SetFrequencyPenalty, SetTemperature, Float64.lt, Float64.gt,
      float64_0_9]
  have hF : exampleRequest.FrequencyPenalty = .fin float64_0_6 := by
    norm_num [exampleRequest, SetFrequencyPenalty, Float64.lt, Float64.gt, float64_0_6]
  rw [Marshal_of_finite hT (show exampleRequest.TopP = .fin 1 from rfl) hF
    (show exampleRequest.PresencePenalty = .fin 0 from rfl)]
  rfl

theorem Marshal_invalidPromptRequest :
    Marshal invalidPromptRequest = .ok invalidPromptBody := by
  rw [Marshal_of_finite (show invalidPromptRequest.Temperature = .fin 1 from rfl)
    (show invalidPromptRequest.TopP = .fin 1 from rfl)
    (show invalidPromptRequest.FrequencyPenalty = .fin 0 from rfl)
    (show invalidPromptRequest.PresencePenalty = .fin 0 from rfl)]
  rfl

/-- C10 fails on a string that is not valid UTF-8: for the prompt `"bad\xffbyte"` the
body is built and its prompt member is the text `bad`, U+FFFD, `byte`, which is not the
field's value; no text has the field's bytes as its encoding. -/
theorem Marshal_body_counterexample :
    Marshal invalidPromptRequest = .ok invalidPromptBody ∧
    invalidPromptRequest.Prompt = [98, 97, 100, 0xff, 98, 121, 116, 101] ∧
    jsonGet invalidPromptBody "prompt" = some (.string "bad\uFFFDbyte") ∧
    utf8 "bad\uFFFDbyte" ≠ invalidPromptRequest.Prompt ∧
    ¬ ∃ t : String, utf8 t = invalidPromptRequest.Prompt := by
  refine ⟨Marshal_invalidPromptRequest, by decide, by decide, by decide, ?_⟩
  rintro ⟨t, ht⟩
  have h1 : jsonText (utf8 t) = "bad\uFFFDbyte" := by
    rw [ht]
    decide
  rw [jsonText_utf8] at h1
  rw [h1] at ht
  revert ht
  decide

/-- C10, amended: when `json.Marshal` succeeds, the body is an object with exactly the
members model, prompt, max_tokens, n, temperature, top_p, logprobs, echo, best_of,
frequency_penalty, presence_penalty, user, stream, plus stop iff `Stop` is non-empty and
logit_bias iff `LogitBias` is non-empty; each member carries its field, for the string
fields (model, prompt, user, the stop elements in `Stop`'s order, the bias tokens) when
they are valid UTF-8; the body does not depend on `URL` or `Bearer`; and it is the body of
the request `GetRequest` returns. -/
theorem Marshal_body (c : CompletionRequest) (body : JSONObject) (h : Marshal c = .ok body) :
    jsonKeys body =
      ["model", "prompt"] ++ (if sliceElems c.Stop = [] then [] else ["stop"]) ++
      ["max_tokens", "n", "temperature", "top_p", "logprobs", "echo", "best_of",
       "frequency_penalty", "presence_penalty"] ++
      (if mapEntries c.LogitBias = [] then [] else ["logit_bias"]) ++ ["user", "stream"] ∧
    (∀ t, c.Model = utf8 t → jsonGet body "model" = some (.string t)) ∧
    (∀ t, c.Prompt = utf8 t → jsonGet body "prompt" = some (.string t)) ∧
    (∀ ts, sliceElems c.Stop = ts.map utf8 →
      jsonGet body "stop" = (if ts = [] then none else some (.array ts))) ∧
    jsonGet body "max_tokens" = some (.int c.MaxTokens) ∧
    jsonGet body "n" = some (.int c.Completions) ∧
    (∀ q, c.Temperature = .fin q → jsonGet body "temperature" = some (.float q)) ∧
    (∀ q, c.TopP = .fin q → jsonGet body "top_p" = some (.float q)) ∧
    jsonGet body "logprobs" = some (.int c.LogProbs) ∧
    jsonGet body "echo" = some (.bool c.Echo) ∧
    jsonGet body "best_of" = some (.int c.BestOf) ∧
    (∀ q, c.FrequencyPenalty = .fin q →
      jsonGet body "frequency_penalty" = some (.float q)) ∧
    (∀ q, c.PresencePenalty = .fin q →
      jsonGet body "presence_penalty" = some (.float q)) ∧
    (c.Temperature.isFinite = true ∧ c.TopP.isFinite = true ∧
      c.FrequencyPenalty.isFinite = true ∧ c.PresencePenalty.isFinite = true) ∧
    ((∀ kv ∈ mapEntries c.LogitBias, ∃ t, kv.1 = utf8 t) →
      ∃ o, jsonGet body "logit_bias" =
          (if mapEntries c.LogitBias = [] then none else some (.object o)) ∧
        ∀ t, objectGet o t = biasOf c (utf8 t)) ∧
    (∀ t, c.User = utf8 t → jsonGet body "user" = some (.string t)) ∧
    jsonGet body "stream" = some (.bool c.Stream) ∧
    (∀ url bearer, Marshal { c with URL := url, Bearer := bearer } = .ok body) ∧
    (∀ parses req, GetRequest parses c = .ok req → req.Body = body) := by
  obtain ⟨t, p, f, pp, ht, hp, hf, hpp⟩ := Marshal_finite h
  have hb := Marshal_of_finite ht hp hf hpp
  rw [h] at hb
  injection hb with hb
  have hget : ∀ parses req, GetRequest parses c = .ok req → req.Body = body := by
    intro parses req hreq
    unfold GetRequest at hreq
    rw [h] at hreq
    by_cases hu : parses c.URL = true
    · simp [NewRequest, hu, bind, Except.bind, pure, Except.pure] at hreq
      rw [← hreq]
    · simp [NewRequest, hu, bind, Except.bind] at hreq
  have hmar : ∀ url bearer, Marshal { c with URL := url, Bearer := bearer } = .ok body := by
    intro url bearer
    rw [← h]
    rfl
  have hstop : ∀ ts : List String, sliceElems c.Stop = ts.map utf8 →
      (sliceElems c.Stop = [] ↔ ts = []) ∧ (sliceElems c.Stop).map jsonText = ts := by
    intro ts hts
    rw [hts]
    refine ⟨by simp, ?_⟩
    rw [List.map_map]
    have : (jsonText ∘ utf8) = id := funext jsonText_utf8
    rw [this, List.map_id]
  have hobj : (∀ kv ∈ mapEntries c.LogitBias, ∃ t, kv.1 = utf8 t) →
      ∀ t, objectGet ((sortByKey (mapEntries c.LogitBias)).map
        (fun kv => (jsonText kv.1, kv.2))) t = biasOf c (utf8 t) := by
    intro hk t
    rw [objectGet_map_jsonText _ (fun kv hkv => hk kv (mem_sortByKey hkv)), mapLookup_sortByKey]
    rfl
  subst hb
  refine ⟨?_, ?_, ?_, ?_, ?_, ?_, ?_, ?_, ?_, ?_, ?_, ?_, ?_, ?_, ?_, ?_, ?_, hmar, hget⟩
  · by_cases hS : sliceElems c.Stop = [] <;> by_cases hB : mapEntries c.LogitBias = [] <;>
      simp [jsonKeys, hS, hB]
  · intro t0 h0
    simp [jsonGet, h0, jsonText_utf8]
  · intro t0 h0
    simp [jsonGet, h0, jsonText_utf8]
  · intro ts hts
    obtain ⟨h1, h2⟩ := hstop ts hts
    by_cases hS : sliceElems c.Stop = []
    · have hts0 := h1.mp hS
      by_cases hB : mapEntries c.LogitBias = [] <;> simp [jsonGet, hS, hB, hts0]
    · have hts0 : ts ≠ [] := fun hx => hS (h1.mpr hx)
      simp [jsonGet, hS, hts0, h2]
  all_goals first
    | (by_cases hS : sliceElems c.Stop = [] <;> by_cases hB : mapEntries c.LogitBias = [] <;>
        simp [jsonGet, hS, hB, ht, hp, hf, hpp, Float64.isFinite]; done)
    | skip
  · intro hk
    refine ⟨_, ?_, hobj hk⟩
    by_cases hS : sliceElems c.Stop = [] <;> by_cases hB : mapEntries c.LogitBias = [] <;>
      simp [jsonGet, hS, hB]
  · intro t0 h0
    by_cases hS : sliceElems c.Stop = [] <;> by_cases hB : mapEntries c.LogitBias = [] <;>
      simp [jsonGet, hS, hB, h0, jsonText_utf8]

/-- C10, amended, at the spec's example: a fresh request with prompt "Hello", max-tokens
60, temperature 0.9 and frequency-penalty 0.6 (the float64 values nearest to 0.9 and 0.6)
serializes with those values, with the default stop `["User:"]` and without a logit_bias
member. -/
theorem Marshal_body_witness :
    Marshal exampleRequest = .ok exampleBody ∧
    jsonGet exampleBody "prompt" = some (.string "Hello") ∧
    jsonGet exampleBody "max_tokens" = some (.int 60) ∧
    jsonGet exampleBody "temperature" = some (.float float64_0_9) ∧
    jsonGet exampleBody "frequency_penalty" = some (.float float64_0_6) ∧
    jsonGet exampleBody "stop" = some (.array ["User:"]) ∧
    jsonGet exampleBody "logit_bias" = none ∧
    (IsBinary64 float64_0_9 ∧ |float64_0_9 - 9 / 10| < 1 / 2 ^ 54) ∧
    (IsBinary64 float64_0_6 ∧ |float64_0_6 - 6 / 10| < 1 / 2 ^ 54) := by
  have hex : Marshal exampleRequest = .ok exampleBody := Marshal_exampleRequest
  obtain ⟨-, -, hprompt, hstop, hmax, -, htemp, -, -, -, -, hfreq, -, -, hbias, -⟩ :=
    Marshal_body exampleRequest exampleBody hex
  have hT : exampleRequest.Temperature = .fin float64_0_9 := by
    norm_num [exampleRequest, SetFrequencyPenalty, SetTemperature, Float64.lt, Float64.gt,
      float64_0_9]
  have hF : exampleRequest.FrequencyPenalty = .fin float64_0_6 := by
    norm_num [exampleRequest, SetFrequencyPenalty, Float64.lt, Float64.gt, float64_0_6]
  obtain ⟨o, ho, -⟩ := hbias (fun kv hkv => absurd hkv (List.not_mem_nil kv))
  refine ⟨hex, hprompt "Hello" rfl, ?_, htemp _ hT, hfreq _ hF, ?_, ?_, ⟨?_, ?_⟩, ⟨?_, ?_⟩⟩
  · rw [hmax]; rfl
  · have h := hstop ["User:"] rfl
    simpa using h
  · rw [ho]; rfl
  · exact ⟨8106479329266893, -53, by norm_num, by norm_num, by norm_num,
      by norm_num [float64_0_9]⟩
  · rw [abs_lt]
    constructor <;> norm_num [float64_0_9]
  · exact ⟨5404319552844595, -53, by norm_num, by norm_num, by norm_num,
      by norm_num [float64_0_6]⟩
  · rw [abs_lt]
    constructor <;> norm_num [float64_0_6]

/-! ## The transport request -/

theorem contentType_ne_authorization : utf8 "Content-Type" ≠ utf8 "Authorization" := by
  decide

theorem GetRequest_of_ok {parses : GoString → Bool} {c : CompletionRequest} {body : JSONObject}
    (hm : Marshal c = .ok body) (hu : parses c.URL = true) :
    GetRequest parses c = .ok
      { Method := "POST", URL := c.URL,
        Header := [("Content-Type", "application/json"),
                   ("Authorization", utf8 "Bearer " ++ c.Bearer)],
        Body := body } := by
  unfold GetRequest
  rw [hm]
  simp [NewRequest, hu, bind, Except.bind, pure, Except.pure, headerSet,
    contentType_ne_authorization]

theorem GetRequest_of_marshal_error {parses : GoString → Bool} {c : CompletionRequest}
    {e : RequestError} (hm : Marshal c = .error e) : GetRequest parses c = .error e := by
  unfold GetRequest
  rw [hm]
  rfl

theorem GetRequest_of_bad_url {parses : GoString → Bool} {c : CompletionRequest}
    {body : JSONObject} (hm : Marshal c = .ok body) (hu : parses c.URL = false) :
    GetRequest parses c = .error .invalidURL := by
  unfold GetRequest
  rw [hm]
  simp [NewRequest, hu, bind, Except.bind]

/-- Whether `GetRequest` fails, and with which error, does not depend on `Bearer`. -/
theorem GetRequest_error_SetBearer (parses : GoString → Bool) (c : CompletionRequest)
    (token : GoString) (e : RequestError) :
    GetRequest parses (SetBearer c token) = .error e ↔ GetRequest parses c = .error e := by
  have hm : Marshal (SetBearer c token) = Marshal c := rfl
  have hurl : (SetBearer c token).URL = c.URL := rfl
  cases hM : Marshal c with
  | error e1 =>
    rw [GetRequest_of_marshal_error hM, GetRequest_of_marshal_error (hm.trans hM)]
  | ok body =>
    cases hu : parses c.URL with
    | false =>
      rw [GetRequest_of_bad_url hM hu,
        GetRequest_of_bad_url (hm.trans hM) (by rw [hurl]; exact hu)]
    | true =>
      rw [GetRequest_of_ok hM hu, GetRequest_of_ok (hm.trans hM) (by rw [hurl]; exact hu)]
      simp

/-- C11: when serialization and request construction succeed, `GetRequest` returns a request
with method POST, target `c.URL`, the serialization of `c` as body, `Content-Type`
`application/json` and `Authorization` `"Bearer " + c.Bearer`; it returns an error exactly
when serialization fails or the URL does not parse (the serialization error, or else the
construction error); and the receiver is unchanged. -/
theorem GetRequest_spec (parses : GoString → Bool) (c : CompletionRequest) :
    (∀ body, Marshal c = .ok body → parses c.URL = true →
      ∃ req, GetRequest parses c = .ok req ∧ req.Method = "POST" ∧ req.URL = c.URL ∧
        req.Body = body ∧
        headerGet req.Header "Content-Type" = some "application/json" ∧
        headerGet req.Header "Authorization" = some (utf8 "Bearer " ++ c.Bearer)) ∧
    ((∃ e, GetRequest parses c = .error e) ↔
      ((∃ e, Marshal c = .error e) ∨ parses c.URL = false)) ∧
    (∀ e, Marshal c = .error e → GetRequest parses c = .error e) ∧
    (∀ body, Marshal c = .ok body → parses c.URL = false →
      GetRequest parses c = .error .invalidURL) ∧
    (GetRequestCall parses c).1 = c ∧
    (GetRequestCall parses c).2 = GetRequest parses c := by
  refine ⟨fun body hm hu => ⟨_, GetRequest_of_ok hm hu, rfl, rfl, rfl, ?_, ?_⟩, ?_,
    fun e hm => GetRequest_of_marshal_error hm,
    fun body hm hu => GetRequest_of_bad_url hm hu, rfl, rfl⟩
  · simp [headerGet]
  · simp [headerGet, contentType_ne_authorization]
  · cases hM : Marshal c with
    | error e1 =>
      rw [GetRequest_of_marshal_error hM]
      exact ⟨fun _ => Or.inl ⟨e1, rfl⟩, fun _ => ⟨e1, rfl⟩⟩
    | ok body =>
      cases hu : parses c.URL with
      | false =>
        rw [GetRequest_of_bad_url hM hu]
        exact ⟨fun _ => Or.inr rfl, fun _ => ⟨_, rfl⟩⟩
      | true =>
        rw [GetRequest_of_ok hM hu]
        constructor
        · rintro ⟨e, he⟩
          cases he
        · rintro (⟨e, he⟩ | h)
          · cases he
          · cases h

/-- C11 at three requests: the example request converts to a POST request to the default
endpoint; a request with a NaN temperature and one with an unparsable URL do not convert. -/
theorem GetRequest_spec_witness :
    (∃ req, GetRequest exampleParses exampleRequest = .ok req ∧ req.Method = "POST" ∧
      req.URL = exampleRequest.URL ∧ req.Body = exampleBody ∧
      headerGet req.Header "Content-Type" = some "application/json" ∧
      headerGet req.Header "Authorization" = some (utf8 "Bearer " ++ exampleRequest.Bearer)) ∧
    GetRequest exampleParses (SetTemperature exampleRequest .nan)
      = .error .unsupportedValue ∧
    GetRequest exampleParses { exampleRequest with URL := ":bad" } = .error .invalidURL :=
  ⟨(GetRequest_spec exampleParses exampleRequest).1 exampleBody Marshal_exampleRequest rfl,
   (GetRequest_spec exampleParses (SetTemperature exampleRequest .nan)).2.2.1
      .unsupportedValue rfl,
   (GetRequest_spec exampleParses { exampleRequest with URL := ":bad" }).2.2.2.1
      exampleBody Marshal_exampleRequest rfl⟩

/-! ## The client -/

theorem Send_of_conversion_error {parses : GoString → Bool} {cl : Client}
    {c : CompletionRequest} {e : RequestError}
    (h : GetRequest parses (SetBearer c cl.bearerToken) = .error e) :
    SendCompletionRequest parses cl c =
      { req := SetBearer c cl.bearerToken, calls := [],
        printed := ["error transforming request"], result := .error e } := by
  simp only [SendCompletionRequest, GetRequestCall, h]

theorem Send_of_transport_error {parses : GoString → Bool} {cl : Client}
    {c : CompletionRequest} {hr : HttpRequest} {e : RequestError}
    (h : GetRequest parses (SetBearer c cl.bearerToken) = .ok hr)
    (hd : cl.HttpClient hr = .error e) :
    SendCompletionRequest parses cl c =
      { req := SetBearer c cl.bearerToken, calls := [hr],
        printed := ["error sending request"], result := .error e } := by
  simp only [SendCompletionRequest, GetRequestCall, h, hd]

theorem Send_of_read_error {parses : GoString → Bool} {cl : Client}
    {c : CompletionRequest} {hr : HttpRequest} {resp : HttpResponse} {e : RequestError}
    (h : GetRequest parses (SetBearer c cl.bearerToken) = .ok hr)
    (hd : cl.HttpClient hr = .ok resp) (hb : resp.Body = .error e) :
    SendCompletionRequest parses cl c =
      { req := SetBearer c cl.bearerToken, calls := [hr],
        printed := ["error reading response body"], result := .error e } := by
  simp only [SendCompletionRequest, GetRequestCall, h, hd, hb]

theorem Send_of_body {parses : GoString → Bool} {cl : Client}
    {c : CompletionRequest} {hr : HttpRequest} {resp : HttpResponse} {body : List UInt8}
    (h : GetRequest parses (SetBearer c cl.bearerToken) = .ok hr)
    (hd : cl.HttpClient hr = .ok resp) (hb : resp.Body = .ok body) :
    SendCompletionRequest parses cl c =
      { req := SetBearer c cl.bearerToken, calls := [hr], printed := [],
        result := .ok body } := by
  simp only [SendCompletionRequest, GetRequestCall, h, hd, hb]

/-- C12: when the conversion of the request fails with error `e`, `SendCompletionRequest`
returns `e` and no bytes, and hands no request to the transport. -/
theorem Send_conversion_failure (parses : GoString → Bool) (cl : Client)
    (c : CompletionRequest) (e : RequestError) (h : GetRequest parses c = .error e) :
    (SendCompletionRequest parses cl c).result = .error e ∧
    (SendCompletionRequest parses cl c).calls = [] := by
  rw [Send_of_conversion_error ((GetRequest_error_SetBearer parses c cl.bearerToken e).mpr h)]
  exact ⟨rfl, rfl⟩

/-- C12 at a request with an unparsable URL: the construction error comes back and the
transport is not called. -/
theorem Send_conversion_failure_witness :
    GetRequest exampleParses { exampleRequest with URL := ":bad" } = .error .invalidURL ∧
    (SendCompletionRequest exampleParses (NewClient exampleHandle "sk-1")
      { exampleRequest with URL := ":bad" }).result = .error .invalidURL ∧
    (SendCompletionRequest exampleParses (NewClient exampleHandle "sk-1")
      { exampleRequest with URL := ":bad" }).calls = [] :=
  ⟨GetRequest_of_bad_url Marshal_exampleRequest rfl,
   Send_conversion_failure exampleParses (NewClient exampleHandle "sk-1")
    { exampleRequest with URL := ":bad" } .invalidURL
    (GetRequest_of_bad_url Marshal_exampleRequest rfl)⟩

/-- The request after `SendCompletionRequest` is the request with the client's token. -/
theorem Send_req (parses : GoString → Bool) (cl : Client) (c : CompletionRequest) :
    (SendCompletionRequest parses cl c).req = SetBearer c cl.bearerToken := by
  cases h : GetRequest parses (SetBearer c cl.bearerToken) with
  | error e => rw [Send_of_conversion_error h]
  | ok hr =>
    cases hd : cl.HttpClient hr with
    | error e => rw [Send_of_transport_error h hd]
    | ok resp =>
      cases hb : resp.Body with
      | error e => rw [Send_of_read_error h hd hb]
      | ok body => rw [Send_of_body h hd hb]

/-- Once conversion succeeds, the converted request is the one call to the transport. -/
theorem Send_calls {parses : GoString → Bool} {cl : Client} {c : CompletionRequest}
    {hr : HttpRequest} (h : GetRequest parses (SetBearer c cl.bearerToken) = .ok hr) :
    (SendCompletionRequest parses cl c).calls = [hr] := by
  cases hd : cl.HttpClient hr with
  | error e => rw [Send_of_transport_error h hd]
  | ok resp =>
    cases hb : resp.Body with
    | error e => rw [Send_of_read_error h hd hb]
    | ok body => rw [Send_of_body h hd hb]

/-- C13: `SendCompletionRequest` returns the error of the first step that fails among
conversion, the transport call and reading the body, and it returns an error only then;
otherwise it returns the bytes of the response body, whatever the status code. -/
theorem Send_result (parses : GoString → Bool) (cl : Client) (c : CompletionRequest) :
    (∀ e, GetRequest parses (SetBearer c cl.bearerToken) = .error e →
      (SendCompletionRequest parses cl c).result = .error e) ∧
    (∀ hr e, GetRequest parses (SetBearer c cl.bearerToken) = .ok hr →
      cl.HttpClient hr = .error e →
      (SendCompletionRequest parses cl c).result = .error e) ∧
    (∀ hr resp e, GetRequest parses (SetBearer c cl.bearerToken) = .ok hr →
      cl.HttpClient hr = .ok resp → resp.Body = .error e →
      (SendCompletionRequest parses cl c).result = .error e) ∧
    (∀ hr resp body, GetRequest parses (SetBearer c cl.bearerToken) = .ok hr →
      cl.HttpClient hr = .ok resp → resp.Body = .ok body →
      (SendCompletionRequest parses cl c).result = .ok body) ∧
    ((∃ e, (SendCompletionRequest parses cl c).result = .error e) ↔
      ((∃ e, GetRequest parses (SetBearer c cl.bearerToken) = .error e) ∨
       (∃ hr e, GetRequest parses (SetBearer c cl.bearerToken) = .ok hr ∧
          cl.HttpClient hr = .error e) ∨
       (∃ hr resp e, GetRequest parses (SetBearer c cl.bearerToken) = .ok hr ∧
          cl.HttpClient hr = .ok resp ∧ resp.Body = .error e))) := by
  refine ⟨fun e h => ?_, fun hr e h hd => ?_, fun hr resp e h hd hb => ?_,
    fun hr resp body h hd hb => ?_, ?_⟩
  · rw [Send_of_conversion_error h]
  · rw [Send_of_transport_error h hd]
  · rw [Send_of_read_error h hd hb]
  · rw [Send_of_body h hd hb]
  · cases h : GetRequest parses (SetBearer c cl.bearerToken) with
    | error e =>
      rw [Send_of_conversion_error h]
      exact ⟨fun _ => Or.inl ⟨e, rfl⟩, fun _ => ⟨e, rfl⟩⟩
    | ok hr =>
      cases hd : cl.HttpClient hr with
      | error e =>
        rw [Send_of_transport_error h hd]
        exact ⟨fun _ => Or.inr (Or.inl ⟨hr, e, rfl, hd⟩), fun _ => ⟨e, rfl⟩⟩
      | ok resp =>
        cases hb : resp.Body with
        | error e =>
          rw [Send_of_read_error h hd hb]
          exact ⟨fun _ => Or.inr (Or.inr ⟨hr, resp, e, rfl, hd, hb⟩), fun _ => ⟨e, rfl⟩⟩
        | ok body =>
          rw [Send_of_body h hd hb]
          constructor
          · rintro ⟨e, he⟩
            cases he
          · rintro (⟨e, he⟩ | ⟨hr1, e, h1, h2⟩ | ⟨hr1, resp1, e, h1, h2, h3⟩)
            · cases he
            · cases h1
              rw [hd] at h2
              cases h2
            · cases h1
              rw [hd] at h2
              cases h2
              rw [hb] at h3
              cases h3

/-- C13 at four calls: a 404 response comes back as its bytes; a failing transport, an
unreadable body and an unparsable URL each come back as their own error. -/
theorem Send_result_witness :
    (SendCompletionRequest exampleParses (NewClient exampleHandle "sk-1")
      exampleRequest).result = .ok [110, 111] ∧
    (SendCompletionRequest exampleParses (NewClient failingHandle "sk-1")
      exampleRequest).result = .error (.transport "connection refused") ∧
    (SendCompletionRequest exampleParses (NewClient unreadableHandle "sk-1")
      exampleRequest).result = .error (.bodyRead "unexpected EOF") ∧
    (SendCompletionRequest exampleParses (NewClient exampleHandle "sk-1")
      { exampleRequest with URL := ":bad" }).result = .error .invalidURL :=
  ⟨(Send_result exampleParses (NewClient exampleHandle "sk-1") exampleRequest).2.2.2.1
      _ _ _ (GetRequest_of_ok Marshal_exampleRequest rfl) rfl rfl,
   (Send_result exampleParses (NewClient failingHandle "sk-1") exampleRequest).2.1
      _ _ (GetRequest_of_ok Marshal_exampleRequest rfl) rfl,
   (Send_result exampleParses (NewClient unreadableHandle "sk-1") exampleRequest).2.2.1
      _ _ _ (GetRequest_of_ok Marshal_exampleRequest rfl) rfl rfl,
   (Send_result exampleParses (NewClient exampleHandle "sk-1")
      { exampleRequest with URL := ":bad" }).1
      _ (GetRequest_of_bad_url Marshal_exampleRequest rfl)⟩

/-- C14: after `SendCompletionRequest` the request holds the client's token in `Bearer` and
is otherwise unchanged, whether or not the call fails; the request produced by the
conversion, which is the one handed to the transport, carries
`Authorization: "Bearer " + token`; the client's token is the one given to `NewClient` or to
the last `SetBearerToken`. -/
theorem Send_uses_client_token (parses : GoString → Bool) (cl : Client)
    (c : CompletionRequest) :
    (SendCompletionRequest parses cl c).req = { c with Bearer := cl.bearerToken } ∧
    (∀ hr, GetRequest parses (SetBearer c cl.bearerToken) = .ok hr →
      (SendCompletionRequest parses cl c).calls = [hr] ∧
      headerGet hr.Header "Authorization" = some (utf8 "Bearer " ++ cl.bearerToken)) ∧
    (∀ hr ∈ (SendCompletionRequest parses cl c).calls,
      headerGet hr.Header "Authorization" = some (utf8 "Bearer " ++ cl.bearerToken)) ∧
    (∀ handle token, (NewClient handle token).bearerToken = token) ∧
    (∀ token, (SetBearerToken cl token).bearerToken = token) := by
  have hauth : ∀ hr, GetRequest parses (SetBearer c cl.bearerToken) = .ok hr →
      headerGet hr.Header "Authorization" = some (utf8 "Bearer " ++ cl.bearerToken) := by
    intro hr h
    cases hM : Marshal (SetBearer c cl.bearerToken) with
    | error e =>
      rw [GetRequest_of_marshal_error hM] at h
      cases h
    | ok body =>
      cases hu : parses (SetBearer c cl.bearerToken).URL with
      | false =>
        rw [GetRequest_of_bad_url hM hu] at h
        cases h
      | true =>
        rw [GetRequest_of_ok hM hu] at h
        cases h
        simp [headerGet, SetBearer, contentType_ne_authorization]
  refine ⟨Send_req parses cl c, fun hr h => ⟨Send_calls h, hauth hr h⟩, ?_,
    fun _ _ => rfl, fun _ => rfl⟩
  intro hr hmem
  cases h : GetRequest parses (SetBearer c cl.bearerToken) with
  | error e =>
    rw [Send_of_conversion_error h] at hmem
    cases hmem
  | ok hr1 =>
    rw [Send_calls h] at hmem
    rw [List.mem_singleton] at hmem
    rw [hmem]
    exact hauth hr1 h

/-- C14 at a request holding a stale token, sent by a client whose token was replaced:
the call to the transport carries the client's current token, and so does the request
afterwards. -/
theorem Send_uses_client_token_witness :
    (SendCompletionRequest exampleParses
        (SetBearerToken (NewClient exampleHandle "sk-1") "sk-2")
        (SetBearer exampleRequest "stale")).req
      = { exampleRequest with Bearer := "sk-2" } ∧
    (SendCompletionRequest exampleParses
        (SetBearerToken (NewClient exampleHandle "sk-1") "sk-2")
        (SetBearer exampleRequest "stale")).calls =
      [{ Method := "POST", URL := "https://api.openai.com/v1/completions",
         Header := [("Content-Type", "application/json"), ("Authorization", "Bearer sk-2")],
         Body := exampleBody }] :=
  ⟨(Send_uses_client_token exampleParses
      (SetBearerToken (NewClient exampleHandle "sk-1") "sk-2")
      (SetBearer exampleRequest "stale")).1,
   ((Send_uses_client_token exampleParses
      (SetBearerToken (NewClient exampleHandle "sk-1") "sk-2")
      (SetBearer exampleRequest "stale")).2.1 _
      (GetRequest_of_ok Marshal_exampleRequest rfl)).1⟩

/-! ## Bias adjustment at the limits of `int` -/

theorem wrapInt_add_wrapInt (a b : Int) : wrapInt (a + wrapInt b) = wrapInt (a + b) := by
  unfold wrapInt
  omega

theorem wrapInt_sub_wrapInt (a b : Int) : wrapInt (a - wrapInt b) = wrapInt (a - b) := by
  unfold wrapInt
  omega

/-- C15 fails when the 64-bit sum wraps: with `tok` at bias 1, `AddBias(tok, MaxInt64)`
computes `1 + MaxInt64`, which wraps to `MinInt64`, and stores -100, where the exact sum
clamps to 100; `RemoveBias(tok, -MaxInt64)` does the same. -/
theorem AddBias_overflow_wraps :
    biasOf wrappingRequest "tok" = some 1 ∧
    InInt64 9223372036854775807 ∧
    biasOf (AddBias wrappingRequest "tok" 9223372036854775807) "tok" = some (-100) ∧
    clampInt (1 + 9223372036854775807) (-100) 100 = 100 ∧
    biasOf (RemoveBias wrappingRequest "tok" (-9223372036854775807)) "tok" = some (-100) ∧
    clampInt (1 - (-9223372036854775807)) (-100) 100 = 100 := by
  decide

/-- C16 fails on a token without entry: on a fresh request `RemoveBias(tok, 50)` stores 50,
above the bias 0 the token counted for before; it also fails when the 64-bit difference
wraps, `RemoveBias(tok, MaxInt64)` on a token at -100 storing 100. -/
theorem RemoveBias_raises_bias :
    (biasOf NewCompletionRequest "tok").getD 0 = 0 ∧
    (biasOf (RemoveBias NewCompletionRequest "tok" 50) "tok").getD 0 = 50 ∧
    ¬ ((biasOf (RemoveBias NewCompletionRequest "tok" 50) "tok").getD 0
        ≤ (biasOf NewCompletionRequest "tok").getD 0) ∧
    biasOf (AddBias NewCompletionRequest "tok" (-100)) "tok" = some (-100) ∧
    biasOf (RemoveBias (AddBias NewCompletionRequest "tok" (-100)) "tok"
      9223372036854775807) "tok" = some 100 := by
  decide

/-- C19: for a token that has an entry, `RemoveBias(tok, d)` gives the same state as
`AddBias(tok, -d)` and `AddBias(tok, d)` the same state as `RemoveBias(tok, -d)`, with the
negation taken exactly or as a 64-bit negation. -/
theorem RemoveBias_eq_AddBias_neg (c : CompletionRequest) (tok : GoString) (d v : Int)
    (h : biasOf c tok = some v) :
    RemoveBias c tok d = AddBias c tok (-d) ∧
    AddBias c tok d = RemoveBias c tok (-d) ∧
    RemoveBias c tok d = AddBias c tok (wrapInt (-d)) ∧
    AddBias c tok d = RemoveBias c tok (wrapInt (-d)) := by
  unfold biasOf at h
  have e1 : wrapInt (v + -d) = wrapInt (v - d) := by rw [Int.sub_eq_add_neg]
  have e2 : wrapInt (v - -d) = wrapInt (v + d) := by rw [sub_neg_eq_add]
  have e3 : wrapInt (v + wrapInt (-d)) = wrapInt (v - d) := by
    rw [wrapInt_add_wrapInt, Int.sub_eq_add_neg]
  have e4 : wrapInt (v - wrapInt (-d)) = wrapInt (v + d) := by
    rw [wrapInt_sub_wrapInt, sub_neg_eq_add]
  refine ⟨?_, ?_, ?_, ?_⟩ <;> simp only [RemoveBias, AddBias, h, e1, e2, e3, e4]

/-- C19 at a token with bias 40: removing 70 and adding -70 both leave -30. -/
theorem RemoveBias_eq_AddBias_neg_witness :
    biasOf (AddBias NewCompletionRequest "tok" 40) "tok" = some 40 ∧
    RemoveBias (AddBias NewCompletionRequest "tok" 40) "tok" 70
      = AddBias (AddBias NewCompletionRequest "tok" 40) "tok" (-70) ∧
    biasOf (RemoveBias (AddBias NewCompletionRequest "tok" 40) "tok" 70) "tok"
      = some (-30) :=
  ⟨by decide,
   (RemoveBias_eq_AddBias_neg (AddBias NewCompletionRequest "tok" 40) "tok" 70 40
      (by decide)).1,
   by decide⟩

/-- C20: from any request, whatever its map holds, and for any delta, the value stored for
`tok` after `AddBias` or `RemoveBias` lies in `[-100, 100]`, also when the 64-bit sum or
difference wraps. -/
theorem bias_in_range_after_one_call (c : CompletionRequest) (tok : GoString) (d : Int) :
    (∃ v, biasOf (AddBias c tok d) tok = some v ∧ -100 ≤ v ∧ v ≤ 100) ∧
    (∃ v, biasOf (RemoveBias c tok d) tok = some v ∧ -100 ≤ v ∧ v ≤ 100) := by
  constructor
  · refine ⟨_, biasOf_AddBias_self c tok d, ?_⟩
    split <;> exact clampInt_range _
  · refine ⟨_, biasOf_RemoveBias_self c tok d, ?_⟩
    split <;> exact clampInt_range _

/-! ## Frame and overwrite properties of the mutators -/

theorem biasOf_AddBias_ne (c : CompletionRequest) {tok other : GoString} (d : Int)
    (hne : other ≠ tok) : biasOf (AddBias c tok d) other = biasOf c other := by
  rw [biasOf, AddBias_LogitBias, mapEntries, mapLookup_mapStore_ne _ _ hne]
  rfl

theorem biasOf_RemoveBias_ne (c : CompletionRequest) {tok other : GoString} (d : Int)
    (hne : other ≠ tok) : biasOf (RemoveBias c tok d) other = biasOf c other := by
  rw [biasOf, RemoveBias_LogitBias, mapEntries, mapLookup_mapStore_ne _ _ hne]
  rfl

theorem AddBias_frame (c : CompletionRequest) (tok : GoString) (d : Int) :
    { AddBias c tok d with LogitBias := c.LogitBias } = c := by
  cases h : mapLookup (mapEntries c.LogitBias) tok with
  | none => simp only [AddBias, h]
  | some v =>
    simp only [AddBias, h]
    split_ifs <;> rfl

theorem RemoveBias_frame (c : CompletionRequest) (tok : GoString) (d : Int) :
    { RemoveBias c tok d with LogitBias := c.LogitBias } = c := by
  cases h : mapLookup (mapEntries c.LogitBias) tok with
  | none => simp only [RemoveBias, h]
  | some v =>
    simp only [RemoveBias, h]
    split_ifs <;> rfl

theorem AddStop_frame (c : CompletionRequest) (stop : GoString) :
    { AddStop c stop with Stop := c.Stop } = c := by
  unfold AddStop
  by_cases h : c.Stop = none
  · simp only [if_pos h]
  · simp only [if_neg h]

/-- C17: each setter changes no field other than the one it names, `AddStop` changes only
`Stop`, and `AddBias` and `RemoveBias` change only `LogitBias`, where `tok` has an entry
afterwards and every other token keeps its presence and its value. -/
theorem mutators_frame (c : CompletionRequest) (s : GoString) (b : Bool) (n : Int)
    (x : Float64) (tok : GoString) (d : Int) :
    { SetModel c s with Model := c.Model } = c ∧
    { SetPrompt c s with Prompt := c.Prompt } = c ∧
    { SetUser c s with User := c.User } = c ∧
    { SetEcho c b with Echo := c.Echo } = c ∧
    { SetStream c b with Stream := c.Stream } = c ∧
    { SetBestOf c n with BestOf := c.BestOf } = c ∧
    { SetMaxTokens c n with MaxTokens := c.MaxTokens } = c ∧
    { SetCompletions c n with Completions := c.Completions } = c ∧
    { SetTemperature c x with Temperature := c.Temperature } = c ∧
    { SetTopP c x with TopP := c.TopP } = c ∧
    { SetLogProbs c n with LogProbs := c.LogProbs } = c ∧
    { SetFrequencyPenalty c x with FrequencyPenalty := c.FrequencyPenalty } = c ∧
    { SetPresencePenalty c x with PresencePenalty := c.PresencePenalty } = c ∧
    { SetBearer c s with Bearer := c.Bearer } = c ∧
    { AddStop c s with Stop := c.Stop } = c ∧
    { AddBias c tok d with LogitBias := c.LogitBias } = c ∧
    { RemoveBias c tok d with LogitBias := c.LogitBias } = c ∧
    (biasOf (AddBias c tok d) tok).isSome = true ∧
    (biasOf (RemoveBias c tok d) tok).isSome = true ∧
    (∀ other, other ≠ tok →
      biasOf (AddBias c tok d) other = biasOf c other ∧
      biasOf (RemoveBias c tok d) other = biasOf c other) := by
  refine ⟨rfl, rfl, rfl, rfl, rfl, rfl, rfl, rfl, rfl, rfl, rfl, rfl, rfl, rfl,
    AddStop_frame c s, AddBias_frame c tok d, RemoveBias_frame c tok d, ?_, ?_,
    fun other hne => ⟨biasOf_AddBias_ne c d hne, biasOf_RemoveBias_ne c d hne⟩⟩
  · rw [biasOf_AddBias_self]; rfl
  · rw [biasOf_RemoveBias_self]; rfl

/-- C17 at a map holding `a: 5`: adjusting `b` leaves the entry of `a` at 5. -/
theorem mutators_frame_witness :
    biasOf (AddBias NewCompletionRequest "a" 5) "a" = some 5 ∧
    biasOf (AddBias (AddBias NewCompletionRequest "a" 5) "b" 7) "a"
      = biasOf (AddBias NewCompletionRequest "a" 5) "a" ∧
    biasOf (RemoveBias (AddBias NewCompletionRequest "a" 5) "b" 7) "a"
      = biasOf (AddBias NewCompletionRequest "a" 5) "a" :=
  ⟨by decide,
   (mutators_frame (AddBias NewCompletionRequest "a" 5) "" false 0 .nan "b" 7).2.2.2.2.2.2.2.2.2.2.2.2.2.2.2.2.2.2.2
      "a" (by decide)⟩

theorem clampFloat_idem (x : Float64) (lo hi : ℚ) (hlh : lo ≤ hi) :
    clampFloat (clampFloat x (.fin lo) (.fin hi)) (.fin lo) (.fin hi)
      = clampFloat x (.fin lo) (.fin hi) := by
  have hhl : ¬ hi < lo := not_lt.mpr hlh
  cases x with
  | nan => simp [clampFloat, Float64.lt, Float64.gt]
  | negInf => simp [clampFloat, Float64.lt, Float64.gt, hhl]
  | posInf => simp [clampFloat, Float64.lt, Float64.gt, hhl]
  | fin q =>
    by_cases h1 : q < lo
    · simp [clampFloat, Float64.lt, Float64.gt, h1, hhl]
    · by_cases h2 : hi < q
      · simp [clampFloat, Float64.lt, Float64.gt, h1, h2, hhl]
      · simp [clampFloat, Float64.lt, Float64.gt, h1, h2]

/-- C18: for each of the thirteen setters, a second call overwrites the first, so the
state after `S(v); S(w)` is the state after `S(w)`; calling a clamping setter again with the
value it has just stored changes nothing; `AddStop` called twice with the same string
appends it twice. -/
theorem setters_overwrite (c : CompletionRequest) (s1 s2 : GoString) (b1 b2 : Bool)
    (n1 n2 : Int) (x1 x2 : Float64) :
    SetModel (SetModel c s1) s2 = SetModel c s2 ∧
    SetPrompt (SetPrompt c s1) s2 = SetPrompt c s2 ∧
    SetUser (SetUser c s1) s2 = SetUser c s2 ∧
    SetEcho (SetEcho c b1) b2 = SetEcho c b2 ∧
    SetStream (SetStream c b1) b2 = SetStream c b2 ∧
    SetBestOf (SetBestOf c n1) n2 = SetBestOf c n2 ∧
    SetMaxTokens (SetMaxTokens c n1) n2 = SetMaxTokens c n2 ∧
    SetCompletions (SetCompletions c n1) n2 = SetCompletions c n2 ∧
    SetTemperature (SetTemperature c x1) x2 = SetTemperature c x2 ∧
    SetTopP (SetTopP c x1) x2 = SetTopP c x2 ∧
    SetLogProbs (SetLogProbs c n1) n2 = SetLogProbs c n2 ∧
    SetFrequencyPenalty (SetFrequencyPenalty c x1) x2 = SetFrequencyPenalty c x2 ∧
    SetPresencePenalty (SetPresencePenalty c x1) x2 = SetPresencePenalty c x2 ∧
    SetBestOf (SetBestOf c n1) (SetBestOf c n1).BestOf = SetBestOf c n1 ∧
    SetLogProbs (SetLogProbs c n1) (SetLogProbs c n1).LogProbs = SetLogProbs c n1 ∧
    SetTemperature (SetTemperature c x1) (SetTemperature c x1).Temperature
      = SetTemperature c x1 ∧
    SetTopP (SetTopP c x1) (SetTopP c x1).TopP = SetTopP c x1 ∧
    SetFrequencyPenalty (SetFrequencyPenalty c x1) (SetFrequencyPenalty c x1).FrequencyPenalty
      = SetFrequencyPenalty c x1 ∧
    SetPresencePenalty (SetPresencePenalty c x1) (SetPresencePenalty c x1).PresencePenalty
      = SetPresencePenalty c x1 ∧
    AddStop (AddStop c s1) s1 ≠ AddStop c s1 ∧
    sliceElems (AddStop (AddStop c s1) s1).Stop = sliceElems c.Stop ++ [s1, s1] := by
  have h01 := clampFloat_idem x1 0 1 (by norm_num)
  have h22 := clampFloat_idem x1 (-2) 2 (by norm_num)
  have hstop : sliceElems (AddStop (AddStop c s1) s1).Stop = sliceElems c.Stop ++ [s1, s1] := by
    rw [AddStop_Stop, AddStop_Stop]
    simp [sliceElems]
  refine ⟨rfl, rfl, rfl, rfl, rfl, rfl, rfl, rfl, rfl, rfl, rfl, rfl, rfl, ?_, ?_, ?_, ?_,
    ?_, ?_, ?_, hstop⟩
  · have h : (if (if n1 < 1 then 1 else n1) < 1 then 1 else (if n1 < 1 then (1 : Int) else n1))
        = if n1 < 1 then 1 else n1 := by split_ifs <;> omega
    show ({ SetBestOf c n1 with BestOf := _ } : CompletionRequest) = _
    simp only [SetBestOf, h]
  · have h : (if (if n1 < 0 then 0 else if n1 > 5 then 5 else n1) < 0 then 0
          else if (if n1 < 0 then 0 else if n1 > 5 then 5 else n1) > 5 then 5
          else (if n1 < 0 then (0 : Int) else if n1 > 5 then 5 else n1))
        = if n1 < 0 then 0 else if n1 > 5 then 5 else n1 := by split_ifs <;> omega
    simp only [SetLogProbs, h]
  · show ({ SetTemperature c x1 with
        Temperature := clampFloat (clampFloat x1 (.fin 0) (.fin 1)) (.fin 0) (.fin 1) }
        : CompletionRequest) = _
    rw [h01]; rfl
  · show ({ SetTopP c x1 with
        TopP := clampFloat (clampFloat x1 (.fin 0) (.fin 1)) (.fin 0) (.fin 1) }
        : CompletionRequest) = _
    rw [h01]; rfl
  · show ({ SetFrequencyPenalty c x1 with
        FrequencyPenalty := clampFloat (clampFloat x1 (.fin 0) (.fin 1)) (.fin 0) (.fin 1) }
        : CompletionRequest) = _
    rw [h01]; rfl
  · show ({ SetPresencePenalty c x1 with
        PresencePenalty :=
          clampFloat (clampFloat x1 (.fin (-2)) (.fin 2)) (.fin (-2)) (.fin 2) }
        : CompletionRequest) = _
    rw [h22]; rfl
  · intro heq
    have h1 := congrArg (fun r => (sliceElems r.Stop).length) heq
    simp only [hstop, AddStop_Stop, sliceElems, List.length_append, List.length_cons,
      List.length_nil] at h1
    omega

end Goai
